import Mathlib

/-!
# SimpleFS engine (`src/library/fs.cpp`)

A shallow embedding of `FileSystem::format`, `FileSystem::mount`,
`FileSystem::create`, `FileSystem::remove` and of the unfinished
`FileSystem::stat`, `FileSystem::read` and `FileSystem::write`, and theorems
about them.

* A `Block` is the 4-byte-word view of a disk block (`Block::Pointers`); the
  other members of the C++ union (`Super`, `Inodes`) are read off the same
  words, so aliasing between the views is kept.
* Anything the C++ leaves undefined (an index past the end of an array, a null
  `mountedOn`, signed overflow) and every device error is a `Fault`.
* 32-bit fields are natural numbers, reduced modulo `2 ^ 32` where the C++
  stores a computed value.
-/

namespace SimpleFS

/-! ## Constants and on-disk layout -/

/-- Modelled from the spec: the constants of `sfs/fs.h`, a header that is not part of
the source tree. `fs.cpp` names them but never gives their values; they are
parameters of the whole development. -/
structure Layout where
  /-- signature stored in the first word of the superblock -/
  MAGIC_NUMBER : Nat
  /-- number of inode records of an inode block -/
  INODES_PER_BLOCK : Nat
  /-- number of direct pointers of an inode -/
  POINTERS_PER_INODE : Nat
  /-- number of 32-bit words of a block -/
  POINTERS_PER_BLOCK : Nat

/-- The values the constants have in the upstream SimpleFS header: 4096-byte blocks,
32-byte inodes with five direct pointers. -/
def sfs : Layout :=
  { MAGIC_NUMBER := 0xf0f03410
    INODES_PER_BLOCK := 128
    POINTERS_PER_INODE := 5
    POINTERS_PER_BLOCK := 1024 }

/-- Modelled from the spec: `union Block` of `sfs/fs.h` (absent), seen through its
`Pointers` member: word `i` of the block. All other views are decoded from
these words. -/
abbrev Block := Nat → Nat

/-- The buffer `memset` to zero that `format` and `remove` write. -/
def zeroBlock : Block := fun _ => 0

/-- Modelled from the spec: `struct SuperBlock` (spec §3), four 32-bit fields. -/
structure SuperBlock where
  MagicNumber : Nat
  Blocks : Nat
  InodeBlocks : Nat
  Inodes : Nat
deriving DecidableEq

/-- Modelled from the spec: `struct Inode` (spec §3): `Valid`, `Size`,
`Direct[POINTERS_PER_INODE]`, `Indirect`. -/
structure Inode where
  Valid : Nat
  Size : Nat
  Direct : List Nat
  Indirect : Nat
deriving DecidableEq

/-- The view `block.Super`: the first four words. -/
def Super (b : Block) : SuperBlock :=
  { MagicNumber := b 0, Blocks := b 1, InodeBlocks := b 2, Inodes := b 3 }

/-- The block whose `Super` member holds `s` and whose other bytes are zero
(`std::make_shared<Block>()` followed by the four assignments of `format`). -/
def superBlock (s : SuperBlock) : Block := fun i =>
  if i = 0 then s.MagicNumber
  else if i = 1 then s.Blocks
  else if i = 2 then s.InodeBlocks
  else if i = 3 then s.Inodes
  else 0

/-- Number of words of one inode record. -/
def inodeWords (c : Layout) : Nat := c.POINTERS_PER_INODE + 3

/-- The view `block.Inodes[j]`. -/
def Inodes (c : Layout) (b : Block) (j : Nat) : Inode :=
  { Valid := b (j * inodeWords c)
    Size := b (j * inodeWords c + 1)
    Direct := (List.range c.POINTERS_PER_INODE).map (fun k => b (j * inodeWords c + 2 + k))
    Indirect := b (j * inodeWords c + 2 + c.POINTERS_PER_INODE) }

/-- The assignment `block.Inodes[j].Valid = v`. -/
def setValid (c : Layout) (b : Block) (j v : Nat) : Block :=
  Function.update b (j * inodeWords c) v

/-! ## Faults, loops, the block device -/

/-- What stops an operation without a result. -/
inductive Fault where
  /-- the device rejects a block address that is out of range -/
  | device
  /-- an array or vector is indexed past its end -/
  | outOfBounds
  /-- `mountedOn` is null -/
  | notMounted
  /-- `std::vector::resize` with a negative `int` as size -/
  | alloc
  /-- a signed loop counter is incremented past `INT_MAX` -/
  | overflow
deriving DecidableEq, Repr

/-- A `for` loop over the values `is`, threading the state `s`; a fault in the body
ends it. -/
def loop {σ ι : Type} (body : σ → ι → Except Fault σ) : σ → List ι → Except Fault σ
  | s, [] => .ok s
  | s, i :: is =>
    match body s i with
    | .ok s' => loop body s' is
    | .error e => .error e

/-- Modelled from the spec: the block device of `sfs/disk.h` (absent): `Blocks` blocks,
addressed from zero (spec §2, §6). -/
structure Disk where
  Blocks : Nat
  data : Nat → Block

/-- `disk->size()`. -/
def Disk.size (d : Disk) : Nat := d.Blocks

/-- `disk->read(blocknum, data)`: a device error on an out-of-range address. -/
def Disk.read (d : Disk) (blocknum : Nat) : Except Fault Block :=
  if blocknum < d.Blocks then .ok (d.data blocknum) else .error .device

/-- `disk->write(blocknum, data)`: a device error on an out-of-range address. -/
def Disk.write (d : Disk) (blocknum : Nat) (data : Block) : Except Fault Disk :=
  if blocknum < d.Blocks then .ok { d with data := Function.update d.data blocknum data }
  else .error .device

/-- Conversion of a 32-bit unsigned value to `int`. -/
def toInt32 (x : Nat) : Int :=
  if x % 2 ^ 32 < 2 ^ 31 then (x % 2 ^ 32 : Nat) else (x % 2 ^ 32 : Nat) - 2 ^ 32

/-! ## The engine -/

/-- The members of `class FileSystem`: the bound device and the free block bitmap. -/
structure FileSystem where
  mountedOn : Option Disk := none
  bitmap : List Nat := []

/-- `FileSystem::format`. -/
def format (c : Layout) (disk : Disk) : Except Fault (Bool × Disk) := do
  let inodeBlocks := (disk.size / 10) % 2 ^ 32
  let block := superBlock
    { Blocks := disk.size % 2 ^ 32
      MagicNumber := c.MAGIC_NUMBER
      InodeBlocks := inodeBlocks
      Inodes := (c.INODES_PER_BLOCK * inodeBlocks) % 2 ^ 32 }
  -- Clear all other blocks
  let disk1 ← loop (fun d i => d.write i zeroBlock) disk (List.range disk.size)
  let disk2 ← disk1.write 0 block
  pure (true, disk2)

/-- `bitmap.resize(n, 0)`. -/
def resize (v : List Nat) (n : Nat) : List Nat :=
  v.take n ++ List.replicate (n - v.length) 0

/-- `offset = x / 32; index = x % 32; bitmap[offset] |= (1 << index)`. -/
def setBit (bitmap : List Nat) (x : Nat) : Except Fault (List Nat) :=
  match bitmap[x / 32]? with
  | some w => .ok (bitmap.set (x / 32) (w ||| 1 <<< (x % 32)))
  | none => .error .outOfBounds

/-- Bit `b` of the bitmap. -/
def bitSet (bitmap : List Nat) (b : Nat) : Bool :=
  (bitmap.getD (b / 32) 0).testBit (b % 32)

/-- The body of `for (auto inode : tmp->Inodes)` in `mount`. -/
def mountInode (c : Layout) (disk : Disk) (bitmap : List Nat) (inode : Inode) :
    Except Fault (List Nat) :=
  if inode.Valid = 1 then do
    let bm1 ← loop (fun bm k =>
        match inode.Direct[k]? with
        | none => .error .outOfBounds
        | some p => if p ≠ 0 then setBit bm p else .ok bm)
      bitmap (List.range 5)
    let bm2 ← setBit bm1 inode.Indirect
    let indirectBlock ← disk.read inode.Indirect
    loop (fun bm i => if indirectBlock i ≠ 0 then setBit bm (indirectBlock i) else .ok bm)
      bm2 (List.range c.POINTERS_PER_BLOCK)
  else .ok bitmap

/-- The body of the second `for (int i = 1; i <= sumOfInodeBlocks; i++)` of `mount`. -/
def mountBlock (c : Layout) (disk : Disk) (bitmap : List Nat) (i : Nat) :
    Except Fault (List Nat) := do
  let tmp ← disk.read i
  loop (fun bm j => mountInode c disk bm (Inodes c tmp j)) bitmap
    (List.range c.INODES_PER_BLOCK)

/-- `FileSystem::mount`. `sumOfBlocks` and `sumOfInodeBlocks` are `int` copies of the
32-bit superblock fields; `ceil(sumOfBlocks / 32.0)` is exact in `double` and
is `-((-sumOfBlocks) / 32)` with floor division; `resize` is given that `int`
and fails on a negative one; `bitmap[0] = 1` needs a word 0; the loops run
`i` from 1 to `sumOfInodeBlocks`, and `i++` overflows when that is `INT_MAX`. -/
def mount (c : Layout) (fs : FileSystem) (disk : Disk) : Except Fault (Bool × FileSystem) := do
  let block ← disk.read 0
  if (Super block).MagicNumber ≠ c.MAGIC_NUMBER then pure (false, fs)
  else
    let sumOfBlocks : Int := toInt32 (Super block).Blocks
    let sumOfInodeBlocks : Int := toInt32 (Super block).InodeBlocks
    -- size = ceil(sumOfBlocks / 32.0)
    let size : Int := -((-sumOfBlocks) / 32)
    if size < 0 then .error .alloc
    else
      let bm0 := resize fs.bitmap size.toNat
      if bm0.length = 0 then .error .outOfBounds
      else
        let bm1 := bm0.set 0 1
        let bm2 ← loop setBit bm1 (List.range' 1 sumOfInodeBlocks.toNat)
        if sumOfInodeBlocks = 2 ^ 31 - 1 then .error .overflow
        else
          let bm3 ← loop (mountBlock c disk) bm2 (List.range' 1 sumOfInodeBlocks.toNat)
          pure (true, { mountedOn := some disk, bitmap := bm3 })

/-- The inner loop `for (uint32_t j = 0; j <= INODES_PER_BLOCK; j++)` of `create`, over
the remaining values `js` of `j`. The result is `inodeNumber` and the buffer
`tmp`; reading `tmp->Inodes[j]` with `j = INODES_PER_BLOCK` is past the end
of the array. -/
def createScan (c : Layout) (tmp : Block) (i : Nat) (inodeNumber : Int) :
    List Nat → Except Fault (Int × Block)
  | [] => .ok (inodeNumber, tmp)
  | j :: js =>
    if c.INODES_PER_BLOCK ≤ j then .error .outOfBounds
    else if (Inodes c tmp j).Valid = 0 then
      -- inodeNumber = (i - 1) * INODES_PER_BLOCK + j; tmp->Inodes[j].Valid = 1; break
      .ok ((((i - 1) * c.INODES_PER_BLOCK + j) % 2 ^ 32 : Nat), setValid c tmp j 1)
    else createScan c tmp i inodeNumber js

/-- The body of `for (uint32_t i = 1; i <= block->Super.InodeBlocks; i++)` in `create`:
the buffer `tmp` is dropped at the end of the iteration, it is never written
to the device. -/
def createBlock (c : Layout) (disk : Disk) (inodeNumber : Int) (i : Nat) : Except Fault Int := do
  let tmp ← disk.read i
  let r ← createScan c tmp i inodeNumber (List.range (c.INODES_PER_BLOCK + 1))
  pure r.1

/-- `FileSystem::create`. The outer loop runs over every inode block, also after a
free slot was found; the value of the last block that has one is returned,
`-1` if the loop body never assigns. The engine is returned as it was. -/
def create (c : Layout) (fs : FileSystem) : Except Fault (Int × FileSystem) :=
  match fs.mountedOn with
  | none => .error .notMounted
  | some disk => do
    let block ← disk.read 0
    let inodeNumber ← loop (createBlock c disk) (-1) (List.range' 1 (Super block).InodeBlocks)
    pure (inodeNumber, fs)

/-- The write of the zero buffer to block `p` when `p != 0`, as in both loops of
`remove`. -/
def zeroIfSet (d : Disk) (p : Nat) : Except Fault Disk :=
  if p ≠ 0 then d.write p zeroBlock else .ok d

/-- `FileSystem::remove`. `inodeBlockIndex` is computed from the `size_t` argument and
handed to the device as a 32-bit block number; `inumber %= INODES_PER_BLOCK`
is `slot`. There is no check of `inumber`, of `Valid`, and no bitmap update. -/
def remove (c : Layout) (fs : FileSystem) (inumber : Nat) : Except Fault (Bool × FileSystem) :=
  match fs.mountedOn with
  | none => .error .notMounted
  | some disk => do
    let inodeBlockIndex := (inumber / c.INODES_PER_BLOCK + 1) % 2 ^ 32
    let slot := inumber % c.INODES_PER_BLOCK
    let block ← disk.read inodeBlockIndex
    let inodeInfo := Inodes c block slot
    -- Free direct blocks
    let disk1 ← loop zeroIfSet disk inodeInfo.Direct
    -- Free indirect blocks
    let disk2 ←
      if inodeInfo.Indirect ≠ 0 then do
        let block2 ← disk1.read inodeInfo.Indirect
        loop zeroIfSet disk1 ((List.range c.POINTERS_PER_BLOCK).map block2)
      else pure disk1
    -- Clear inode in inode table
    let disk3 ← disk2.write inodeBlockIndex (setValid c block slot 0)
    pure (true, { fs with mountedOn := some disk3 })

/-- `FileSystem::stat`, as far as it is written: it computes `inodeBlock`, which it
never uses, reduces `inumber` modulo `INODES_PER_BLOCK`, reads the device
block of that number and returns 0. (`std::make_share` is read as
`std::make_shared`, the buffer handed to `read` as `block->Data`.) -/
def stat (c : Layout) (fs : FileSystem) (inumber : Nat) : Except Fault (Int × FileSystem) :=
  match fs.mountedOn with
  | none => .error .notMounted
  | some disk => do
    -- inodeBlock = inumber / INODES_PER_BLOCK is not used
    let inumber := inumber % c.INODES_PER_BLOCK
    let _ ← disk.read (inumber % 2 ^ 32)
    pure (0, fs)

/-- `FileSystem::read`, as far as it is written: the same load as `stat`, then
`return 0`; the caller's buffer `data` is not touched. -/
def read (c : Layout) (fs : FileSystem) (inumber : Nat) (data : List Nat) (length offset : Nat) :
    Except Fault (Int × List Nat × FileSystem) :=
  match fs.mountedOn with
  | none => .error .notMounted
  | some disk => do
    let inumber := inumber % c.INODES_PER_BLOCK
    let _ ← disk.read (inumber % 2 ^ 32)
    let _ := length
    let _ := offset
    pure (0, data, fs)

/-- `FileSystem::write`, as far as it is written: the same load as `stat`, then
`return 0`; nothing is written to the device. -/
def write (c : Layout) (fs : FileSystem) (inumber : Nat) (data : List Nat) (length offset : Nat) :
    Except Fault (Int × FileSystem) :=
  match fs.mountedOn with
  | none => .error .notMounted
  | some disk => do
    let inumber := inumber % c.INODES_PER_BLOCK
    let _ ← disk.read (inumber % 2 ^ 32)
    let _ := data
    let _ := length
    let _ := offset
    pure (0, fs)

/-- The number `create` assigns to slot `j` of inode block `i`:
`(i - 1) * INODES_PER_BLOCK + j`, computed in `uint32_t`. -/
def createNumber (c : Layout) (i j : Nat) : Nat :=
  ((i - 1) * c.INODES_PER_BLOCK + j) % 2 ^ 32

/-- The block and the slot `remove` computes from `inumber`:
`inumber / INODES_PER_BLOCK + 1` as a 32-bit block number and
`inumber % INODES_PER_BLOCK`. -/
def removeLocate (c : Layout) (inumber : Nat) : Nat × Nat :=
  ((inumber / c.INODES_PER_BLOCK + 1) % 2 ^ 32, inumber % c.INODES_PER_BLOCK)

/-- The block `stat`, `read` and `write` hand to the device and the slot left in
`inumber`: both are `inumber % INODES_PER_BLOCK`. -/
def statLocate (c : Layout) (inumber : Nat) : Nat × Nat :=
  ((inumber % c.INODES_PER_BLOCK) % 2 ^ 32, inumber % c.INODES_PER_BLOCK)

/-! ## Concrete devices -/

/-- A device of `n` zero blocks. -/
def blank (n : Nat) : Disk := { Blocks := n, data := fun _ => zeroBlock }

/-- The device after the clearing loop of `format` has run over blocks `0 .. n-1`. -/
def cleared (d : Disk) (n : Nat) : Disk :=
  { Blocks := d.Blocks, data := fun i => if i < n then zeroBlock else d.data i }

/-- The superblock `format` computes for a device of `n` blocks. -/
def formatSuper (c : Layout) (n : Nat) : SuperBlock :=
  { MagicNumber := c.MAGIC_NUMBER
    Blocks := n % 2 ^ 32
    InodeBlocks := (n / 10) % 2 ^ 32
    Inodes := (c.INODES_PER_BLOCK * ((n / 10) % 2 ^ 32)) % 2 ^ 32 }

/-- The device `format` leaves behind. -/
def formatted (c : Layout) (d : Disk) : Disk :=
  { Blocks := d.Blocks
    data := Function.update (cleared d d.Blocks).data 0 (superBlock (formatSuper c d.Blocks)) }

/-- The engine after `format` and `mount` of a 100-block device, upstream constants:
bits 0 .. 10 of the bitmap are set. -/
def fresh100 : FileSystem :=
  { mountedOn := some (formatted sfs (blank 100)), bitmap := [2047, 0, 0, 0] }

/-- A formatted 20-block device on which inode 0 is valid and empty (size 0, all
pointers 0), the record a file has before its first write. -/
def oneFile : Disk :=
  { Blocks := 20
    data := fun i =>
      if i = 0 then superBlock (formatSuper sfs 20)
      else if i = 1 then setValid sfs zeroBlock 0 1
      else zeroBlock }

/-- A formatted 10-block device (one inode block) on which all 128 inodes are valid:
in each record `Valid = 1`, `Indirect = 2`, the rest 0; block 2 is a zero
pointer block. -/
def fullTable : Disk :=
  { Blocks := 10
    data := fun i =>
      if i = 0 then superBlock (formatSuper sfs 10)
      else if i = 1 then fun w => if w % 8 = 0 then 1 else if w % 8 = 7 then 2 else 0
      else zeroBlock }


/-- The device after the zero buffer has been written to every non-zero block number
of `l` (a loop `if (p != 0) write(p, non)` over `l`). -/
def zeroed (d : Disk) (l : List Nat) : Disk :=
  { Blocks := d.Blocks, data := fun b => if b ≠ 0 ∧ b ∈ l then zeroBlock else d.data b }

/-- The device `remove(inumber)` leaves behind when none of its device accesses fails:
direct blocks zeroed, then the blocks named by the indirect block as it is
read at that point, then the inode block written back with `Valid = 0`. -/
def removed (c : Layout) (d : Disk) (inumber : Nat) : Disk :=
  let inodeBlockIndex := (inumber / c.INODES_PER_BLOCK + 1) % 2 ^ 32
  let slot := inumber % c.INODES_PER_BLOCK
  let inodeInfo := Inodes c (d.data inodeBlockIndex) slot
  let d1 := zeroed d inodeInfo.Direct
  let d2 :=
    if inodeInfo.Indirect ≠ 0 then
      zeroed d1 ((List.range c.POINTERS_PER_BLOCK).map (d1.data inodeInfo.Indirect))
    else d1
  { Blocks := d.Blocks
    data := Function.update d2.data inodeBlockIndex (setValid c (d.data inodeBlockIndex) slot 0) }

/-- The superblock invariants of spec §3 on a device: `totalBlocks` is the size of the
device (a 32-bit count), `inodeBlocks < totalBlocks`, and `totalInodes` counts
no more than the slots of the inode blocks. `format` establishes them. -/
def SuperOK (c : Layout) (d : Disk) : Prop :=
  (Super (d.data 0)).Blocks = d.Blocks ∧ d.Blocks < 2 ^ 32 ∧
    (Super (d.data 0)).InodeBlocks < (Super (d.data 0)).Blocks ∧
    (Super (d.data 0)).Inodes ≤ c.INODES_PER_BLOCK * (Super (d.data 0)).InodeBlocks

/-- A 20-block device whose inode 0 is valid and uses block 3 both as its first
direct block and as its indirect block; word 0 of block 3 names block 4, and
block 4 is full of sevens. -/
def aliased : Disk :=
  { Blocks := 20
    data := fun i =>
      if i = 0 then superBlock (formatSuper sfs 20)
      else if i = 1 then fun w => if w = 0 then 1 else if w = 2 then 3 else if w = 7 then 3 else 0
      else if i = 3 then fun w => if w = 0 then 4 else 0
      else if i = 4 then fun _ => 7
      else zeroBlock }

/-- A 20-block device with one file: inode 0 is valid, its first direct pointer names
block 3, its indirect pointer names block 4, and word 0 of block 4 names
block 5; blocks 3 and 5 are full of sevens. -/
def twoLevel : Disk :=
  { Blocks := 20
    data := fun i =>
      if i = 0 then superBlock (formatSuper sfs 20)
      else if i = 1 then fun w => if w = 0 then 1 else if w = 2 then 3 else if w = 7 then 4 else 0
      else if i = 3 then fun _ => 7
      else if i = 4 then fun w => if w = 0 then 5 else 0
      else if i = 5 then fun _ => 7
      else zeroBlock }

/-- The engine after `mount` of `twoLevel`: bits 0 .. 5 of the bitmap are set. -/
def twoLevelFS : FileSystem := { mountedOn := some twoLevel, bitmap := [63] }

/-- A 20-block device after a file was removed and its block reused: inode 0 has
`Valid = 0` but still holds the direct pointer 3 it had; inode 1 is valid,
owns block 3 (direct) and the empty indirect block 4; block 3 is full of
sevens. -/
def stale : Disk :=
  { Blocks := 20
    data := fun i =>
      if i = 0 then superBlock (formatSuper sfs 20)
      else if i = 1 then fun w =>
        if w = 2 then 3 else if w = 8 then 1 else if w = 10 then 3 else if w = 15 then 4 else 0
      else if i = 3 then fun _ => 7
      else zeroBlock }

/-- The engine after `mount` of `stale`: bits 0 .. 4 of the bitmap are set. -/
def staleFS : FileSystem := { mountedOn := some stale, bitmap := [31] }

/-- A 20-block device with one five-byte file: inode 0 is valid with `Size = 5`, direct
block 3 and the empty indirect block 4; inode 1 is free. -/
def helloFile : Disk :=
  { Blocks := 20
    data := fun i =>
      if i = 0 then superBlock (formatSuper sfs 20)
      else if i = 1 then fun w =>
        if w = 0 then 1 else if w = 1 then 5 else if w = 2 then 3 else if w = 7 then 4 else 0
      else if i = 3 then fun _ => 7
      else zeroBlock }

/-- The engine after `mount` of `helloFile`: bits 0 .. 4 of the bitmap are set. -/
def helloFS : FileSystem := { mountedOn := some helloFile, bitmap := [31] }

/-- A 20-block device whose only valid inode is number 25 (slot 25 of block 1), an
empty file with the empty indirect block 4. -/
def deepFile : Disk :=
  { Blocks := 20
    data := fun i =>
      if i = 0 then superBlock (formatSuper sfs 20)
      else if i = 1 then fun w => if w = 200 then 1 else if w = 207 then 4 else 0
      else zeroBlock }

/-- The engine after `mount` of `deepFile`: bits 0, 1, 2 and 4 of the bitmap are set. -/
def deepFS : FileSystem := { mountedOn := some deepFile, bitmap := [23] }

/-! ## Loops and the device -/

theorem loop_append {σ ι : Type} (body : σ → ι → Except Fault σ) (s : σ) (xs ys : List ι) :
    loop body s (xs ++ ys) =
      match loop body s xs with
      | .ok s' => loop body s' ys
      | .error e => .error e := by
  induction xs generalizing s with
  | nil => simp [loop]
  | cons x xs ih =>
    simp only [List.cons_append, loop]
    cases body s x with
    | ok s' => simpa using ih s'
    | error e => rfl

theorem loop_cons_ok {σ ι : Type} {f : σ → ι → Except Fault σ} {s s' : σ} {i : ι}
    (is : List ι) (h : f s i = .ok s') : loop f s (i :: is) = loop f s' is := by
  simp only [loop, h]

theorem Disk.read_ok {d : Disk} {b : Nat} (h : b < d.Blocks) : d.read b = .ok (d.data b) := by
  simp [Disk.read, h]

theorem Disk.write_ok {d : Disk} {b : Nat} (blk : Block) (h : b < d.Blocks) :
    d.write b blk = .ok { Blocks := d.Blocks, data := Function.update d.data b blk } := by
  simp [Disk.write, h]

theorem loop_clear (d : Disk) (n : Nat) (h : n ≤ d.Blocks) :
    loop (fun d i => d.write i zeroBlock) d (List.range n) = .ok (cleared d n) := by
  induction n with
  | zero => simp [loop, cleared]
  | succ n ih =>
    rw [List.range_succ, loop_append, ih (by omega)]
    simp only [loop]
    rw [Disk.write_ok (d := cleared d n) zeroBlock (by simpa [cleared] using h)]
    simp only [cleared]
    congr 2
    funext i
    by_cases h1 : i = n
    · subst h1; simp
    · have : (i < n + 1) = (i < n) := by
        apply propext; omega
      simp [Function.update, h1, this]

theorem format_eq (c : Layout) (d : Disk) (h : 1 ≤ d.Blocks) :
    format c d = .ok (true, formatted c d) := by
  unfold format
  simp only [Disk.size, bind, Except.bind, pure, Except.pure]
  rw [loop_clear d d.Blocks (le_refl _)]
  simp only []
  rw [Disk.write_ok (d := cleared d d.Blocks) _ (by simpa [cleared] using h)]
  rfl

theorem Super_superBlock (s : SuperBlock) : Super (superBlock s) = s := by
  cases s; simp [Super, superBlock]

theorem formatted_zero (c : Layout) (d : Disk) :
    (formatted c d).data 0 = superBlock (formatSuper c d.Blocks) := by
  simp [formatted]

theorem formatted_pos (c : Layout) (d : Disk) (i : Nat) (h1 : 1 ≤ i) (h2 : i < d.Blocks) :
    (formatted c d).data i = zeroBlock := by
  have : i ≠ 0 := by omega
  simp [formatted, cleared, Function.update, this, h2]

/-- `create` hands back the engine it was given: nothing is written to the device. -/
theorem create_state (c : Layout) (fs fs' : FileSystem) (n : Int)
    (h : create c fs = .ok (n, fs')) : fs' = fs := by
  unfold create at h
  split at h
  · exact Except.noConfusion h
  · simp only [bind, Except.bind, pure, Except.pure] at h
    repeat' (split at h)
    all_goals first
      | exact Except.noConfusion h
      | (injection h with h1; injection h1 with _ h2; exact h2.symm)

/-- `format` establishes the superblock invariants. -/
theorem formatted_SuperOK (c : Layout) (d : Disk) (h1 : 1 ≤ d.Blocks) (h2 : d.Blocks < 2 ^ 32) :
    SuperOK c (formatted c d) := by
  have h3 : d.Blocks / 10 % 2 ^ 32 = d.Blocks / 10 := Nat.mod_eq_of_lt (by omega)
  have h4 : d.Blocks % 2 ^ 32 = d.Blocks := Nat.mod_eq_of_lt h2
  unfold SuperOK
  rw [formatted_zero, Super_superBlock]
  simp only [formatSuper, h3, h4]
  refine ⟨rfl, h2, by omega, Nat.mod_le _ _⟩

/-- A second `create` right after a successful one returns the same number. -/
theorem create_repeats (c : Layout) (fs fs' : FileSystem) (n : Int)
    (h : create c fs = .ok (n, fs')) : create c fs' = .ok (n, fs') := by
  have e := create_state c fs fs' n h
  rw [e] at h ⊢
  exact h

/-! ## C1: format -/

/-- C1 (counterexample): with 128 inodes per block, on a device of 335544320 blocks
`format` stores `totalInodes = 0`, not `inodeBlocks * INODES_PER_BLOCK = 2 ^ 32`:
the 32-bit product wraps. -/
theorem format_inodes_wrap :
    ∃ d, format sfs { Blocks := 335544320, data := fun _ => zeroBlock } = .ok (true, d) ∧
      (Super (d.data 0)).InodeBlocks = 335544320 / 10 ∧
      (Super (d.data 0)).Inodes ≠ (Super (d.data 0)).InodeBlocks * sfs.INODES_PER_BLOCK := by
  refine ⟨_, format_eq sfs _ (by decide), ?_, ?_⟩
  · rw [formatted_zero, Super_superBlock]; decide
  · rw [formatted_zero, Super_superBlock]; decide

/-- C1 (amended): on every device of `n ≥ 1` blocks (`n` a 32-bit count), whatever it
held, `format` returns true; afterwards block 0 decodes to a superblock with
the magic number, `totalBlocks = n`, `inodeBlocks = n / 10` and
`totalInodes = (inodeBlocks * INODES_PER_BLOCK) mod 2 ^ 32`, which is the
product itself when that is below `2 ^ 32`; the device keeps its size and
every block `1 .. n-1` is the zero block. -/
theorem format_spec (c : Layout) (disk : Disk) (h1 : 1 ≤ disk.size) (h2 : disk.size < 2 ^ 32) :
    ∃ d, format c disk = .ok (true, d) ∧ d.size = disk.size ∧
      (Super (d.data 0)).MagicNumber = c.MAGIC_NUMBER ∧
      (Super (d.data 0)).Blocks = disk.size ∧
      (Super (d.data 0)).InodeBlocks = disk.size / 10 ∧
      (Super (d.data 0)).Inodes = ((Super (d.data 0)).InodeBlocks * c.INODES_PER_BLOCK) % 2 ^ 32 ∧
      ((disk.size / 10) * c.INODES_PER_BLOCK < 2 ^ 32 →
        (Super (d.data 0)).Inodes = (Super (d.data 0)).InodeBlocks * c.INODES_PER_BLOCK) ∧
      ∀ i, 1 ≤ i → i < disk.size → d.data i = zeroBlock := by
  unfold Disk.size at *
  have h3 : disk.Blocks / 10 % 2 ^ 32 = disk.Blocks / 10 := Nat.mod_eq_of_lt (by omega)
  refine ⟨_, format_eq c disk h1, rfl, ?_, ?_, ?_, ?_, ?_, ?_⟩
  · rw [formatted_zero, Super_superBlock]; rfl
  · rw [formatted_zero, Super_superBlock]; exact Nat.mod_eq_of_lt h2
  · rw [formatted_zero, Super_superBlock]; exact h3
  · rw [formatted_zero, Super_superBlock]; simp only [formatSuper, h3, Nat.mul_comm]
  · intro h4
    rw [formatted_zero, Super_superBlock]
    simp only [formatSuper, h3, Nat.mul_comm]
    exact Nat.mod_eq_of_lt (by rwa [Nat.mul_comm])
  · intro i hi1 hi2
    exact formatted_pos c disk i hi1 hi2

/-- C1 (witness): a device of 20 blocks full of ones, with the upstream constants. -/
theorem format_spec_witness :
    ∃ d, format sfs { Blocks := 20, data := fun _ _ => 1 } = .ok (true, d) ∧ d.size = 20 ∧
      (Super (d.data 0)).MagicNumber = 0xf0f03410 ∧
      (Super (d.data 0)).Blocks = 20 ∧
      (Super (d.data 0)).InodeBlocks = 2 ∧
      (Super (d.data 0)).Inodes = 256 ∧
      ∀ i, 1 ≤ i → i < 20 → d.data i = zeroBlock := by
  obtain ⟨d, h, hs, hm, hb, hi, hn, -, hz⟩ :=
    format_spec sfs { Blocks := 20, data := fun _ _ => 1 } (by decide) (by decide)
  refine ⟨d, h, hs, hm, hb, hi, ?_, hz⟩
  rw [hn, hi]; rfl

/-! ## C3: mount and the magic number -/

/-- When the magic number matches, `mount` does not return false: it returns true or
stops on a fault. -/
theorem mount_magic_ok (c : Layout) (fs : FileSystem) (disk : Disk) (h : 0 < disk.size)
    (hm : (Super (disk.data 0)).MagicNumber = c.MAGIC_NUMBER) (fs' : FileSystem) :
    mount c fs disk ≠ .ok (false, fs') := by
  unfold mount
  rw [Disk.read_ok (d := disk) h]
  simp only [bind, Except.bind, pure, Except.pure, hm, ne_eq, not_true_eq_false, if_false]
  intro hcontra
  split_ifs at hcontra <;> (repeat' (split at hcontra)) <;> simp at hcontra

theorem mount_magic_bad (c : Layout) (fs : FileSystem) (disk : Disk) (h : 0 < disk.size)
    (hm : (Super (disk.data 0)).MagicNumber ≠ c.MAGIC_NUMBER) :
    mount c fs disk = .ok (false, fs) := by
  unfold mount
  rw [Disk.read_ok (d := disk) h]
  simp [bind, Except.bind, pure, Except.pure, hm]

/-- C3: on a device that has a block 0, `mount` returns false exactly when the magic
number decoded from block 0 differs from `MAGIC_NUMBER`, and the engine it
returns with false is the engine it was called on: same bound device, same
bitmap. -/
theorem mount_false_iff (c : Layout) (fs : FileSystem) (disk : Disk) (h : 0 < disk.size) :
    ((∃ fs', mount c fs disk = .ok (false, fs')) ↔
        (Super (disk.data 0)).MagicNumber ≠ c.MAGIC_NUMBER) ∧
      ∀ fs', mount c fs disk = .ok (false, fs') →
        fs' = fs ∧ fs'.mountedOn = fs.mountedOn ∧ fs'.bitmap = fs.bitmap := by
  constructor
  · constructor
    · rintro ⟨fs', hfs'⟩ hm
      exact mount_magic_ok c fs disk h hm fs' hfs'
    · intro hm
      exact ⟨fs, mount_magic_bad c fs disk h hm⟩
  · intro fs' hfs'
    by_cases hm : (Super (disk.data 0)).MagicNumber = c.MAGIC_NUMBER
    · exact absurd hfs' (mount_magic_ok c fs disk h hm fs')
    · rw [mount_magic_bad c fs disk h hm] at hfs'
      injection hfs' with h1
      injection h1 with _ h2
      subst h2
      exact ⟨rfl, rfl, rfl⟩

/-- C3 (witness): an engine bound to nothing with bitmap `[7]`, asked to mount a
one-block device whose first word is 5. -/
theorem mount_false_iff_witness :
    ((∃ fs', mount sfs { mountedOn := none, bitmap := [7] }
          { Blocks := 1, data := fun _ _ => 5 } = .ok (false, fs')) ↔
        (Super ((fun _ _ => 5 : Nat → Block) 0)).MagicNumber ≠ sfs.MAGIC_NUMBER) ∧
      ∀ fs', mount sfs { mountedOn := none, bitmap := [7] }
          { Blocks := 1, data := fun _ _ => 5 } = .ok (false, fs') →
        fs' = { mountedOn := none, bitmap := [7] } ∧ fs'.mountedOn = none ∧ fs'.bitmap = [7] :=
  mount_false_iff sfs { mountedOn := none, bitmap := [7] }
    { Blocks := 1, data := fun _ _ => 5 } (by decide)

/-! ## C2: the bitmap built by mount -/

/-- C2 (failing input): `oneFile` has the right magic number and one valid inode, all
of whose pointers are 0. `mount` takes `Indirect = 0` for a pointer block,
reads the superblock as one and marks its first word, the magic number, in
the bitmap: an index far past the end of the one-word bitmap. No bitmap with
exactly the bits 0, 1, 2 is built. -/
theorem mount_indirect_zero :
    (Super (oneFile.data 0)).MagicNumber = sfs.MAGIC_NUMBER ∧
      Inodes sfs (oneFile.data 1) 0 =
        { Valid := 1, Size := 0, Direct := [0, 0, 0, 0, 0], Indirect := 0 } ∧
      mount sfs {} oneFile = .error .outOfBounds := by
  set_option maxRecDepth 20000 in
  exact ⟨rfl, rfl, rfl⟩

/-! ## C4 - C7: create -/

/-- C4 (failing input): on a freshly formatted and mounted 100-block device (ten inode
blocks, all slots free) `create` returns 1152, the first slot of the last
inode block, not 0: the `break` leaves only the inner loop. -/
theorem create_fresh_returns_last :
    format sfs (blank 100) = .ok (true, formatted sfs (blank 100)) ∧
      mount sfs {} (formatted sfs (blank 100)) = .ok (true, fresh100) ∧
      create sfs fresh100 = .ok (1152, fresh100) := by
  set_option maxRecDepth 20000 in
  exact ⟨format_eq sfs (blank 100) (by decide), rfl, rfl⟩

/-- C5 (failing input): two consecutive `create` calls on the freshly formatted and
mounted 100-block device return the same number, 1152. -/
theorem create_twice_same :
    mount sfs {} (formatted sfs (blank 100)) = .ok (true, fresh100) ∧
      ∃ fs1 fs2, create sfs fresh100 = .ok (1152, fs1) ∧ create sfs fs1 = .ok (1152, fs2) := by
  set_option maxRecDepth 20000 in
  exact ⟨rfl, fresh100, fresh100, rfl, rfl⟩

/-- C6 (failing input): `create` returns 1152 on the fresh 100-block device and the
device is what it was; slot `1152 % 128` of block `1 + 1152 / 128` still has
`Valid = 0`. -/
theorem create_not_recorded :
    ∃ fs1 d, create sfs fresh100 = .ok (1152, fs1) ∧ fs1.mountedOn = some d ∧
      d.data = (formatted sfs (blank 100)).data ∧
      (Inodes sfs (d.data (1 + 1152 / 128)) (1152 % 128)).Valid = 0 := by
  set_option maxRecDepth 20000 in
  exact ⟨fresh100, formatted sfs (blank 100), rfl, rfl, rfl, rfl⟩

/-- The pointer loop of `mount` over a zero block sets no bit. -/
theorem loop_pointers_zero (bm : List Nat) (l : List Nat) :
    loop (fun bm i => if zeroBlock i ≠ 0 then setBit bm (zeroBlock i) else .ok bm) bm l
      = .ok bm := by
  induction l with
  | nil => rfl
  | cons i l ih => simpa [loop, zeroBlock] using ih

theorem fullTable_inode (j : Nat) :
    Inodes sfs (fullTable.data 1) j =
      { Valid := 1, Size := 0, Direct := [0, 0, 0, 0, 0], Indirect := 2 } := by
  have h1 : (j * 8 + 1) % 8 = 1 := by omega
  have h2 : (j * 8 + 2 + 5) % 8 = 7 := by omega
  have h3 : (j * 8 + 2) % 8 = 2 := by omega
  have h4 : (j * 8 + 2 + 1) % 8 = 3 := by omega
  have h5 : (j * 8 + 2 + 2) % 8 = 4 := by omega
  have h6 : (j * 8 + 2 + 3) % 8 = 5 := by omega
  have h7 : (j * 8 + 2 + 4) % 8 = 6 := by omega
  simp only [Inodes, fullTable, inodeWords, sfs]
  have hr : List.range 5 = [0, 1, 2, 3, 4] := by decide
  simp [hr, h1, h2, h3, h4, h5, h6, h7]

theorem fullTable_mountInode (bm : List Nat) (h : bm = [3] ∨ bm = [7]) (j : Nat) :
    mountInode sfs fullTable bm (Inodes sfs (fullTable.data 1) j) = .ok [7] := by
  rw [fullTable_inode]
  have hr : fullTable.read 2 = .ok zeroBlock := rfl
  have hd : ∀ b : List Nat, loop (fun bm k =>
        match ([0, 0, 0, 0, 0] : List Nat)[k]? with
        | none => .error .outOfBounds
        | some p => if p ≠ 0 then setBit bm p else .ok bm) b (List.range 5) = .ok b := by
    intro b; rfl
  simp only [mountInode, if_true, bind, Except.bind, hd, hr]
  rcases h with h | h <;> subst h <;> exact loop_pointers_zero _ _

theorem fullTable_inodes (l : List Nat) :
    loop (fun bm j => mountInode sfs fullTable bm (Inodes sfs (fullTable.data 1) j)) [7] l
      = .ok [7] := by
  induction l with
  | nil => rfl
  | cons j l ih =>
    rw [loop_cons_ok l (fullTable_mountInode [7] (Or.inr rfl) j)]
    exact ih

theorem mountBlock_ok (c : Layout) (disk : Disk) (bm : List Nat) (i : Nat)
    (h : i < disk.Blocks) :
    mountBlock c disk bm i =
      loop (fun bm j => mountInode c disk bm (Inodes c (disk.data i) j)) bm
        (List.range c.INODES_PER_BLOCK) := by
  simp only [mountBlock, Disk.read_ok h, bind, Except.bind]

/-- The two loops of `mount` decide its result: when the superblock has the magic
number, block counts in the range of `int`, and the loops run through,
`mount` returns true, binds the device and keeps the bitmap of the loops. -/
theorem mount_of_loops (c : Layout) (fs : FileSystem) (disk : Disk) (bm2 bm3 : List Nat)
    (h0 : 0 < disk.Blocks)
    (hm : (Super (disk.data 0)).MagicNumber = c.MAGIC_NUMBER)
    (hB : 0 < (Super (disk.data 0)).Blocks ∧ (Super (disk.data 0)).Blocks < 2 ^ 31)
    (hI : (Super (disk.data 0)).InodeBlocks < 2 ^ 31 - 1)
    (h1 : loop setBit ((resize fs.bitmap (((Super (disk.data 0)).Blocks + 31) / 32)).set 0 1)
      (List.range' 1 (Super (disk.data 0)).InodeBlocks) = .ok bm2)
    (h2 : loop (mountBlock c disk) bm2 (List.range' 1 (Super (disk.data 0)).InodeBlocks)
      = .ok bm3) :
    mount c fs disk = .ok (true, { mountedOn := some disk, bitmap := bm3 }) := by
  obtain ⟨hB0, hB1⟩ := hB
  generalize hsb : Super (disk.data 0) = sb at *
  have e1 : toInt32 sb.Blocks = (sb.Blocks : Int) := by
    have : sb.Blocks % 2 ^ 32 = sb.Blocks := Nat.mod_eq_of_lt (by omega)
    simp only [toInt32, this, if_pos hB1]
  have e2 : toInt32 sb.InodeBlocks = (sb.InodeBlocks : Int) := by
    have : sb.InodeBlocks % 2 ^ 32 = sb.InodeBlocks := Nat.mod_eq_of_lt (by omega)
    have h3 : sb.InodeBlocks < 2 ^ 31 := by omega
    simp only [toInt32, this, if_pos h3]
  have e3 : -(-(sb.Blocks : Int) / 32) = (((sb.Blocks + 31) / 32 : Nat) : Int) := by omega
  have e4 : ¬ ((((sb.Blocks + 31) / 32 : Nat) : Int) < 0) := by omega
  have e5 : ¬ ((sb.InodeBlocks : Int) = 2 ^ 31 - 1) := by omega
  have e6 : ¬ (resize fs.bitmap ((sb.Blocks + 31) / 32)).length = 0 := by
    simp only [resize, List.length_append, List.length_take, List.length_replicate]
    omega
  unfold mount
  rw [Disk.read_ok (d := disk) h0]
  simp only [bind, Except.bind, pure, Except.pure, hsb, hm, ne_eq, not_true_eq_false, if_false,
    e1, e2, e3, e4, e5, e6, Int.toNat_ofNat, h1, h2]

theorem fullTable_mount :
    mount sfs {} fullTable = .ok (true, { mountedOn := some fullTable, bitmap := [7] }) := by
  have hb : mountBlock sfs fullTable [3] 1 = .ok [7] := by
    have hl : List.range sfs.INODES_PER_BLOCK = 0 :: List.range' 1 127 := by decide
    rw [mountBlock_ok sfs fullTable [3] 1 (by decide), hl, loop_cons_ok
      (f := fun bm j => mountInode sfs fullTable bm (Inodes sfs (fullTable.data 1) j))
      _ (fullTable_mountInode [3] (Or.inl rfl) 0)]
    exact fullTable_inodes _
  have h2 : loop (mountBlock sfs fullTable) [3] [1] = .ok [7] := by
    rw [loop_cons_ok _ hb]; rfl
  exact mount_of_loops sfs {} fullTable [3] [7] (by decide) rfl (by decide) (by decide) rfl h2

/-- C7 (failing input): `fullTable` mounts, every slot of its inode block is valid, and
`create` does not return -1: after slot 127 it reads `Inodes[128]`, past the
end of the block. -/
theorem create_full_reads_past_end :
    mount sfs {} fullTable = .ok (true, { mountedOn := some fullTable, bitmap := [7] }) ∧
      (∀ j, j < 128 → (Inodes sfs (fullTable.data 1) j).Valid = 1) ∧
      create sfs { mountedOn := some fullTable, bitmap := [7] } = .error .outOfBounds := by
  set_option maxRecDepth 20000 in
  exact ⟨fullTable_mount, fun j _ => by rw [fullTable_inode], rfl⟩

/-! ## C8: remove -/

theorem zeroIfSet_loop (l : List Nat) (d : Disk) (h : ∀ p ∈ l, p ≠ 0 → p < d.Blocks) :
    loop zeroIfSet d l = .ok (zeroed d l) := by
  induction l generalizing d with
  | nil => simp [loop, zeroed]
  | cons p l ih =>
    have hp := h p (List.mem_cons_self p l)
    have hl : ∀ q ∈ l, q ≠ 0 → q < d.Blocks := fun q hq => h q (List.mem_cons_of_mem p hq)
    by_cases h0 : p = 0
    · have e : zeroIfSet d p = .ok d := by simp [zeroIfSet, h0]
      rw [loop_cons_ok l e, ih d hl]
      congr 1
      simp only [zeroed, List.mem_cons]
      congr 1
      funext b
      by_cases hb : b ≠ 0 ∧ b ∈ l
      · have : b ≠ 0 ∧ (b = p ∨ b ∈ l) := ⟨hb.1, Or.inr hb.2⟩
        simp only [if_pos hb, if_pos this]
      · have : ¬ (b ≠ 0 ∧ (b = p ∨ b ∈ l)) := by
          rintro ⟨h1, h2 | h2⟩
          · exact h1 (h2.trans h0)
          · exact hb ⟨h1, h2⟩
        simp only [if_neg hb, if_neg this]
    · have e : zeroIfSet d p
          = .ok { Blocks := d.Blocks, data := Function.update d.data p zeroBlock } := by
        simp only [zeroIfSet, ne_eq, h0, not_false_eq_true, if_true]
        exact Disk.write_ok zeroBlock (hp h0)
      rw [loop_cons_ok l e,
        ih { Blocks := d.Blocks, data := Function.update d.data p zeroBlock } hl]
      congr 1
      simp only [zeroed, List.mem_cons]
      congr 1
      funext b
      by_cases hbp : b = p
      · subst hbp
        have : b ≠ 0 ∧ (b = b ∨ b ∈ l) := ⟨h0, Or.inl rfl⟩
        rw [if_pos this]
        by_cases hb : b ≠ 0 ∧ b ∈ l
        · rw [if_pos hb]
        · rw [if_neg hb, Function.update_same]
      · by_cases hb : b ≠ 0 ∧ b ∈ l
        · have : b ≠ 0 ∧ (b = p ∨ b ∈ l) := ⟨hb.1, Or.inr hb.2⟩
          rw [if_pos hb, if_pos this]
        · have : ¬ (b ≠ 0 ∧ (b = p ∨ b ∈ l)) := by
            rintro ⟨h1, h2 | h2⟩
            · exact hbp h2
            · exact hb ⟨h1, h2⟩
          rw [if_neg hb, if_neg this, Function.update_noteq hbp]

/-- `remove` in closed form: when the inode block, the non-zero direct pointers, the
non-zero indirect pointer and the non-zero entries of the block it names are
all block numbers of the device, `remove` returns true and leaves `removed`. -/
theorem remove_eq (c : Layout) (fs : FileSystem) (d : Disk) (inumber : Nat)
    (hm : fs.mountedOn = some d)
    (hidx : (inumber / c.INODES_PER_BLOCK + 1) % 2 ^ 32 < d.Blocks)
    (hdir : ∀ p ∈ (Inodes c (d.data ((inumber / c.INODES_PER_BLOCK + 1) % 2 ^ 32))
      (inumber % c.INODES_PER_BLOCK)).Direct, p ≠ 0 → p < d.Blocks)
    (hind : (Inodes c (d.data ((inumber / c.INODES_PER_BLOCK + 1) % 2 ^ 32))
        (inumber % c.INODES_PER_BLOCK)).Indirect ≠ 0 →
      (Inodes c (d.data ((inumber / c.INODES_PER_BLOCK + 1) % 2 ^ 32))
        (inumber % c.INODES_PER_BLOCK)).Indirect < d.Blocks ∧
      ∀ q ∈ (List.range c.POINTERS_PER_BLOCK).map
          ((zeroed d (Inodes c (d.data ((inumber / c.INODES_PER_BLOCK + 1) % 2 ^ 32))
            (inumber % c.INODES_PER_BLOCK)).Direct).data
            (Inodes c (d.data ((inumber / c.INODES_PER_BLOCK + 1) % 2 ^ 32))
              (inumber % c.INODES_PER_BLOCK)).Indirect),
        q ≠ 0 → q < d.Blocks) :
    remove c fs inumber
      = .ok (true, { mountedOn := some (removed c d inumber), bitmap := fs.bitmap }) := by
  unfold remove
  rw [hm]
  simp only [bind, Except.bind, pure, Except.pure]
  rw [Disk.read_ok hidx]
  simp only []
  rw [zeroIfSet_loop _ d hdir]
  simp only []
  by_cases hi : (Inodes c (d.data ((inumber / c.INODES_PER_BLOCK + 1) % 2 ^ 32))
      (inumber % c.INODES_PER_BLOCK)).Indirect = 0
  · simp only [hi, ne_eq, not_true_eq_false, if_false]
    rw [Disk.write_ok _ (by simpa [zeroed] using hidx)]
    simp only [removed, hi, ne_eq, not_true_eq_false, if_false]
    rfl
  · obtain ⟨h1, h2⟩ := hind hi
    simp only [ne_eq, hi, not_false_eq_true, if_true]
    rw [Disk.read_ok (by simpa [zeroed] using h1)]
    simp only []
    rw [zeroIfSet_loop _ _ (by simpa [zeroed] using h2)]
    simp only []
    rw [Disk.write_ok _ (by simpa [zeroed] using hidx)]
    simp only [removed, hi, ne_eq, not_false_eq_true, if_true]
    rfl

theorem aliased_remove :
    remove sfs { mountedOn := some aliased, bitmap := [31] } 0
      = .ok (true, { mountedOn := some (removed sfs aliased 0), bitmap := [31] }) := by
  refine remove_eq sfs _ aliased 0 rfl (by decide) (by decide) (fun _ => ⟨by decide, ?_⟩)
  intro q hq hq0
  simp only [List.mem_map, List.mem_range] at hq
  obtain ⟨i, -, rfl⟩ := hq
  exact absurd rfl hq0

/-- C8 (counterexample): on `aliased` inode 0 is valid and all its non-zero pointers
(direct 3, indirect 3, entry 4 of block 3) lie in `inodeBlocks+1 .. totalBlocks-1`;
`remove(0)` returns true, yet block 4, named by a non-zero entry of the
indirect block, still holds its data: block 3 was zeroed as a direct block
before it was read as the indirect block. -/
theorem remove_aliased_keeps_block :
    mount sfs {} aliased = .ok (true, { mountedOn := some aliased, bitmap := [31] }) ∧
      (Super (aliased.data 0)).InodeBlocks = 2 ∧ (Super (aliased.data 0)).Blocks = 20 ∧
      Inodes sfs (aliased.data 1) 0 =
        { Valid := 1, Size := 0, Direct := [3, 0, 0, 0, 0], Indirect := 3 } ∧
      (∀ i, aliased.data 3 i ≠ 0 → aliased.data 3 i = 4) ∧ aliased.data 3 0 = 4 ∧
      ∃ d, remove sfs { mountedOn := some aliased, bitmap := [31] } 0
          = .ok (true, { mountedOn := some d, bitmap := [31] }) ∧
        (Inodes sfs (d.data 1) 0).Valid = 0 ∧ d.data 3 = zeroBlock ∧ d.data 4 0 = 7 := by
  set_option maxRecDepth 20000 in
  refine ⟨rfl, rfl, rfl, rfl, ?_, rfl, removed sfs aliased 0, aliased_remove, rfl, rfl, rfl⟩
  intro i hi
  by_cases h : i = 0
  · subst h; rfl
  · exact absurd (by simp [aliased, h]) hi

theorem zeroed_mem (d : Disk) (l : List Nat) (p : Nat) (h0 : p ≠ 0) (hp : p ∈ l) :
    (zeroed d l).data p = zeroBlock := by
  simp only [zeroed, if_pos (And.intro h0 hp)]

theorem zeroed_keeps_zero (d : Disk) (l : List Nat) (p : Nat) (h : d.data p = zeroBlock) :
    (zeroed d l).data p = zeroBlock := by
  by_cases hp : p ≠ 0 ∧ p ∈ l
  · simp only [zeroed, if_pos hp]
  · simp only [zeroed, if_neg hp, h]

theorem removed_inode_block (c : Layout) (d : Disk) (inumber : Nat) :
    (removed c d inumber).data ((inumber / c.INODES_PER_BLOCK + 1) % 2 ^ 32) =
      setValid c (d.data ((inumber / c.INODES_PER_BLOCK + 1) % 2 ^ 32))
        (inumber % c.INODES_PER_BLOCK) 0 := by
  simp only [removed, Function.update_same]

theorem removed_no_indirect (c : Layout) (d : Disk) (inumber b : Nat)
    (hb : b ≠ (inumber / c.INODES_PER_BLOCK + 1) % 2 ^ 32)
    (hi : (Inodes c (d.data ((inumber / c.INODES_PER_BLOCK + 1) % 2 ^ 32))
      (inumber % c.INODES_PER_BLOCK)).Indirect = 0) :
    (removed c d inumber).data b =
      (zeroed d (Inodes c (d.data ((inumber / c.INODES_PER_BLOCK + 1) % 2 ^ 32))
        (inumber % c.INODES_PER_BLOCK)).Direct).data b := by
  simp only [removed, Function.update_noteq hb, hi, ne_eq, not_true_eq_false, if_false]

theorem removed_indirect (c : Layout) (d : Disk) (inumber b : Nat)
    (hb : b ≠ (inumber / c.INODES_PER_BLOCK + 1) % 2 ^ 32)
    (hi : (Inodes c (d.data ((inumber / c.INODES_PER_BLOCK + 1) % 2 ^ 32))
      (inumber % c.INODES_PER_BLOCK)).Indirect ≠ 0) :
    (removed c d inumber).data b =
      (zeroed (zeroed d (Inodes c (d.data ((inumber / c.INODES_PER_BLOCK + 1) % 2 ^ 32))
          (inumber % c.INODES_PER_BLOCK)).Direct)
        ((List.range c.POINTERS_PER_BLOCK).map
          ((zeroed d (Inodes c (d.data ((inumber / c.INODES_PER_BLOCK + 1) % 2 ^ 32))
            (inumber % c.INODES_PER_BLOCK)).Direct).data
            (Inodes c (d.data ((inumber / c.INODES_PER_BLOCK + 1) % 2 ^ 32))
              (inumber % c.INODES_PER_BLOCK)).Indirect))).data b := by
  simp only [removed, Function.update_noteq hb, hi, ne_eq, not_false_eq_true, if_true]

/-- C8 (amended): on a mounted device with the superblock invariants, for every
`inumber < totalInodes` whose non-zero pointers (direct, indirect, entries of
the indirect block) all name blocks in `inodeBlocks+1 .. totalBlocks-1` and
whose indirect pointer, when non-zero, is not also one of its direct pointers:
`remove(inumber)` returns true, the device then holds `Valid = 0` in that
inode's slot, and every block that was named by a non-zero direct pointer or
by a non-zero entry of the indirect block is the zero block. -/
theorem remove_spec (c : Layout) (fs : FileSystem) (d : Disk) (inumber : Nat) (ino : Inode)
    (hm : fs.mountedOn = some d)
    (hs : SuperOK c d)
    (hn : inumber < (Super (d.data 0)).Inodes)
    (hino : ino = Inodes c (d.data (1 + inumber / c.INODES_PER_BLOCK))
      (inumber % c.INODES_PER_BLOCK))
    (hdir : ∀ p ∈ ino.Direct, p ≠ 0 →
      (Super (d.data 0)).InodeBlocks < p ∧ p < (Super (d.data 0)).Blocks)
    (hind : ino.Indirect ≠ 0 →
      (Super (d.data 0)).InodeBlocks < ino.Indirect ∧ ino.Indirect < (Super (d.data 0)).Blocks)
    (hent : ino.Indirect ≠ 0 → ∀ i, i < c.POINTERS_PER_BLOCK → d.data ino.Indirect i ≠ 0 →
      (Super (d.data 0)).InodeBlocks < d.data ino.Indirect i ∧
        d.data ino.Indirect i < (Super (d.data 0)).Blocks)
    (hal : ino.Indirect ≠ 0 → ino.Indirect ∉ ino.Direct) :
    ∃ d', remove c fs inumber = .ok (true, { mountedOn := some d', bitmap := fs.bitmap }) ∧
      (Inodes c (d'.data (1 + inumber / c.INODES_PER_BLOCK))
        (inumber % c.INODES_PER_BLOCK)).Valid = 0 ∧
      (∀ p ∈ ino.Direct, p ≠ 0 → d'.data p = zeroBlock) ∧
      (ino.Indirect ≠ 0 → ∀ i, i < c.POINTERS_PER_BLOCK → d.data ino.Indirect i ≠ 0 →
        d'.data (d.data ino.Indirect i) = zeroBlock) := by
  obtain ⟨hB, h32, hib, hI⟩ := hs
  have hlt : inumber / c.INODES_PER_BLOCK < (Super (d.data 0)).InodeBlocks :=
    Nat.div_lt_of_lt_mul (lt_of_lt_of_le hn hI)
  have e : (inumber / c.INODES_PER_BLOCK + 1) % 2 ^ 32 = 1 + inumber / c.INODES_PER_BLOCK := by
    rw [Nat.mod_eq_of_lt (by omega)]; omega
  have hz : ino.Indirect ≠ 0 → (zeroed d ino.Direct).data ino.Indirect = d.data ino.Indirect := by
    intro h0
    have : ¬ (ino.Indirect ≠ 0 ∧ ino.Indirect ∈ ino.Direct) := fun h => hal h0 h.2
    simp only [zeroed, if_neg this]
  have hr := remove_eq c fs d inumber hm (by rw [e]; omega)
    (by
      rw [e, ← hino]
      intro p hp h0
      have := hdir p hp h0
      omega)
    (by
      rw [e, ← hino]
      intro h0
      refine ⟨by have := hind h0; omega, ?_⟩
      intro q hq hq0
      simp only [List.mem_map, List.mem_range] at hq
      obtain ⟨i, hi, rfl⟩ := hq
      rw [hz h0] at hq0 ⊢
      have := hent h0 i hi hq0
      omega)
  refine ⟨removed c d inumber, hr, ?_, ?_, ?_⟩
  · have h1 := removed_inode_block c d inumber
    rw [e] at h1
    rw [h1]
    simp only [Inodes, setValid, Function.update_same]
  · intro p hp h0
    have hp1 := hdir p hp h0
    have hne : p ≠ (inumber / c.INODES_PER_BLOCK + 1) % 2 ^ 32 := by rw [e]; omega
    have h1 : (zeroed d ino.Direct).data p = zeroBlock := zeroed_mem d _ p h0 hp
    by_cases h2 : ino.Indirect = 0
    · rw [removed_no_indirect c d inumber p hne (by rw [e, ← hino]; exact h2), e, ← hino]
      exact h1
    · rw [removed_indirect c d inumber p hne (by rw [e, ← hino]; exact h2), e, ← hino]
      exact zeroed_keeps_zero _ _ p h1
  · intro h0 i hi hq0
    have hq1 := hent h0 i hi hq0
    have hne : d.data ino.Indirect i ≠ (inumber / c.INODES_PER_BLOCK + 1) % 2 ^ 32 := by
      rw [e]; omega
    rw [removed_indirect c d inumber _ hne (by rw [e, ← hino]; exact h0), e, ← hino]
    apply zeroed_mem _ _ _ hq0
    rw [hz h0]
    exact List.mem_map.mpr ⟨i, List.mem_range.mpr hi, rfl⟩

theorem twoLevel_entries (i : Nat) (h : twoLevel.data 4 i ≠ 0) : twoLevel.data 4 i = 5 := by
  by_cases h0 : i = 0
  · subst h0; rfl
  · exact absurd (by simp [twoLevel, h0]) h

/-- C8 (witness): `remove(0)` on `twoLevel`, whose inode 0 names block 3 directly and
block 5 through the indirect block 4. -/
theorem remove_spec_witness :
    ∃ d', remove sfs twoLevelFS 0 = .ok (true, { mountedOn := some d', bitmap := [63] }) ∧
      (Inodes sfs (d'.data (1 + 0 / 128)) (0 % 128)).Valid = 0 ∧
      (∀ p ∈ [3, 0, 0, 0, 0], p ≠ 0 → d'.data p = zeroBlock) ∧
      ((4 : Nat) ≠ 0 → ∀ i, i < 1024 → twoLevel.data 4 i ≠ 0 →
        d'.data (twoLevel.data 4 i) = zeroBlock) :=
  remove_spec sfs twoLevelFS twoLevel 0
    { Valid := 1, Size := 0, Direct := [3, 0, 0, 0, 0], Indirect := 4 }
    rfl ⟨rfl, by decide, by decide, by decide⟩ (by decide) rfl (by decide)
    (fun _ => ⟨by decide, by decide⟩)
    (fun _ i _ h => by rw [twoLevel_entries i h]; exact ⟨by decide, by decide⟩)
    (fun _ => by decide)

/-! ## C9, C10: remove, the bitmap and the checks it does not make -/

/-- `remove` never touches the bitmap. -/
theorem remove_bitmap (c : Layout) (fs fs' : FileSystem) (inumber : Nat) (r : Bool)
    (h : remove c fs inumber = .ok (r, fs')) : fs'.bitmap = fs.bitmap := by
  unfold remove at h
  split at h
  · exact Except.noConfusion h
  · simp only [bind, Except.bind, pure, Except.pure] at h
    repeat' (split at h)
    all_goals first
      | exact Except.noConfusion h
      | (injection h with h1; injection h1 with _ h2; rw [← h2])

theorem twoLevel_remove :
    remove sfs twoLevelFS 0
      = .ok (true, { mountedOn := some (removed sfs twoLevel 0), bitmap := [63] }) := by
  refine remove_eq sfs twoLevelFS twoLevel 0 rfl (by decide) (by decide)
    (fun _ => ⟨by decide, ?_⟩)
  intro q hq hq0
  simp only [List.mem_map, List.mem_range] at hq
  obtain ⟨i, -, rfl⟩ := hq
  have h5 : (zeroed twoLevel (Inodes sfs (twoLevel.data ((0 / sfs.INODES_PER_BLOCK + 1) % 2 ^ 32))
      (0 % sfs.INODES_PER_BLOCK)).Direct).data (Inodes sfs
        (twoLevel.data ((0 / sfs.INODES_PER_BLOCK + 1) % 2 ^ 32))
        (0 % sfs.INODES_PER_BLOCK)).Indirect i = twoLevel.data 4 i := rfl
  rw [h5] at hq0 ⊢
  rw [twoLevel_entries i hq0]
  decide

theorem twoLevel_removed_valid (b j : Nat) (hb : b = 1 ∨ b = 2) :
    (Inodes sfs ((removed sfs twoLevel 0).data b) j).Valid = 0 := by
  rcases hb with hb | hb <;> subst hb
  · have h1 : (removed sfs twoLevel 0).data 1 = setValid sfs (twoLevel.data 1) 0 0 :=
      removed_inode_block sfs twoLevel 0
    rw [h1]
    by_cases hj : j = 0
    · subst hj; rfl
    · have h8 : j * 8 ≠ 0 ∧ j * 8 ≠ 2 ∧ j * 8 ≠ 7 := by omega
      simp [Inodes, setValid, inodeWords, sfs, twoLevel, Function.update, h8]
  · have h2 : (removed sfs twoLevel 0).data 2 = zeroBlock := by
      set_option maxRecDepth 20000 in
      rfl
    rw [h2]; rfl

/-- C9 (failing input): `twoLevel` mounts with bits 0 .. 5 set (superblock, two inode
blocks, direct block 3, indirect block 4, block 5 named by it). `remove(0)`
returns true and leaves no valid inode on the device, but the bitmap is the
same `[63]`: bits 3, 4 and 5 stay set for blocks no valid inode reaches. -/
theorem remove_keeps_bits :
    mount sfs {} twoLevel = .ok (true, twoLevelFS) ∧
      ∃ fs', remove sfs twoLevelFS 0 = .ok (true, fs') ∧
        (∃ d', fs'.mountedOn = some d' ∧
          ∀ b j, b = 1 ∨ b = 2 → (Inodes sfs (d'.data b) j).Valid = 0) ∧
        fs'.bitmap = [63] ∧
        bitSet fs'.bitmap 3 = true ∧ bitSet fs'.bitmap 4 = true ∧ bitSet fs'.bitmap 5 = true := by
  set_option maxRecDepth 20000 in
  exact ⟨rfl, _, twoLevel_remove, ⟨_, rfl, fun b j hb => twoLevel_removed_valid b j hb⟩,
    rfl, rfl, rfl, rfl⟩

theorem stale_remove :
    remove sfs staleFS 0
      = .ok (true, { mountedOn := some (removed sfs stale 0), bitmap := [31] }) :=
  remove_eq sfs staleFS stale 0 rfl (by decide) (by decide) (fun h => absurd rfl h)

theorem stale_remove_far :
    remove sfs staleFS 256
      = .ok (true, { mountedOn := some (removed sfs stale 256), bitmap := [31] }) := by
  refine remove_eq sfs staleFS stale 256 rfl (by decide) (by decide)
    (fun _ => ⟨by decide, ?_⟩)
  intro q hq hq0
  simp only [List.mem_map, List.mem_range] at hq
  obtain ⟨i, -, rfl⟩ := hq
  exact absurd rfl hq0

theorem twoLevel_remove_again :
    remove sfs { mountedOn := some (removed sfs twoLevel 0), bitmap := [63] } 0
      = .ok (true,
          { mountedOn := some (removed sfs (removed sfs twoLevel 0) 0), bitmap := [63] }) := by
  set_option maxRecDepth 20000 in
  refine remove_eq sfs _ (removed sfs twoLevel 0) 0 rfl (by decide) (by decide)
    (fun _ => ⟨by decide, ?_⟩)
  intro q hq hq0
  simp only [List.mem_map, List.mem_range] at hq
  obtain ⟨i, -, rfl⟩ := hq
  have h5 : (zeroed (removed sfs twoLevel 0)
      (Inodes sfs ((removed sfs twoLevel 0).data ((0 / sfs.INODES_PER_BLOCK + 1) % 2 ^ 32))
        (0 % sfs.INODES_PER_BLOCK)).Direct).data (Inodes sfs
          ((removed sfs twoLevel 0).data ((0 / sfs.INODES_PER_BLOCK + 1) % 2 ^ 32))
          (0 % sfs.INODES_PER_BLOCK)).Indirect i = twoLevel.data 4 i := by
    set_option maxRecDepth 20000 in
    rfl
  rw [h5] at hq0 ⊢
  rw [twoLevel_entries i hq0]
  decide

/-- C10 (failing input): on `stale` slot 0 has `Valid = 0` and `totalInodes = 256`.
`remove(0)` returns true and zeroes block 3, a block of the valid inode 1;
`remove(256)`, out of range, returns true after reading data block 3 as an
inode block and writes it back with its first word cleared; and on
`twoLevel` a second `remove(0)` right after the first returns true again. -/
theorem remove_unchecked :
    mount sfs {} stale = .ok (true, staleFS) ∧
      (Inodes sfs (stale.data 1) 0).Valid = 0 ∧
      Inodes sfs (stale.data 1) 1 =
        { Valid := 1, Size := 0, Direct := [3, 0, 0, 0, 0], Indirect := 4 } ∧
      (Super (stale.data 0)).Inodes = 256 ∧ stale.data 3 = (fun _ => 7) ∧
      (∃ d', remove sfs staleFS 0 = .ok (true, { mountedOn := some d', bitmap := [31] }) ∧
        d'.data 3 = zeroBlock) ∧
      (∃ d', remove sfs staleFS 256 = .ok (true, { mountedOn := some d', bitmap := [31] }) ∧
        d'.data 3 0 = 0) ∧
      ∃ fs1 fs2, remove sfs twoLevelFS 0 = .ok (true, fs1) ∧
        remove sfs fs1 0 = .ok (true, fs2) := by
  set_option maxRecDepth 20000 in
  exact ⟨rfl, rfl, rfl, rfl, rfl, ⟨_, stale_remove, rfl⟩, ⟨_, stale_remove_far, rfl⟩,
    _, _, twoLevel_remove, twoLevel_remove_again⟩

/-! ## C11, C12, C14, C17: stat, read and write -/

theorem helloFile_mount : mount sfs {} helloFile = .ok (true, helloFS) := by
  set_option maxRecDepth 20000 in
  rfl

theorem deepFile_mount : mount sfs {} deepFile = .ok (true, deepFS) := by
  set_option maxRecDepth 20000 in
  rfl

theorem deepFile_remove :
    remove sfs deepFS 25
      = .ok (true, { mountedOn := some (removed sfs deepFile 25), bitmap := [23] }) := by
  refine remove_eq sfs deepFS deepFile 25 rfl (by decide) (by decide)
    (fun _ => ⟨by decide, ?_⟩)
  intro q hq hq0
  simp only [List.mem_map, List.mem_range] at hq
  obtain ⟨i, -, rfl⟩ := hq
  exact absurd rfl hq0

/-- C11 (failing input): on the mounted `helloFile`, whose inode 0 is valid,
`write(0, "hello", 5, 0)` returns 0, not 5, and leaves the device as it was;
`read(0, buf, 5, 0)` then returns 0 and the buffer unchanged, not `"hello"`. -/
theorem write_read_stub :
    mount sfs {} helloFile = .ok (true, helloFS) ∧
      (Inodes sfs (helloFile.data 1) 0).Valid = 1 ∧
      write sfs helloFS 0 [104, 101, 108, 108, 111] 5 0 = .ok (0, helloFS) ∧
      read sfs helloFS 0 [0, 0, 0, 0, 0] 5 0 = .ok (0, [0, 0, 0, 0, 0], helloFS) := by
  exact ⟨helloFile_mount, rfl, rfl, rfl⟩

/-- C12 (failing input): on the mounted `helloFile` inode 0 is valid with `Size = 5`
and inode 1 is not valid; `stat(0)` returns 0, not 5, and `stat(1)` returns 0
as well instead of failing. -/
theorem stat_stub :
    mount sfs {} helloFile = .ok (true, helloFS) ∧
      Inodes sfs (helloFile.data 1) 0 =
        { Valid := 1, Size := 5, Direct := [3, 0, 0, 0, 0], Indirect := 4 } ∧
      (Inodes sfs (helloFile.data 1) 1).Valid = 0 ∧
      stat sfs helloFS 0 = .ok (0, helloFS) ∧
      stat sfs helloFS 1 = .ok (0, helloFS) := by
  exact ⟨helloFile_mount, rfl, rfl, rfl, rfl⟩

/-- C14 (failing input): on the mounted 20-block `deepFile` inode 25 is valid and empty,
`25 < totalInodes = 256`; `read(25, buf, 100, 0)` asks the device for block
`25 % 128 = 25`, which does not exist, and ends in a device error. -/
theorem read_device_error :
    mount sfs {} deepFile = .ok (true, deepFS) ∧
      Inodes sfs (deepFile.data (1 + 25 / 128)) (25 % 128) =
        { Valid := 1, Size := 0, Direct := [0, 0, 0, 0, 0], Indirect := 4 } ∧
      (Super (deepFile.data 0)).Inodes = 256 ∧
      read sfs deepFS 25 [] 100 0 = .error .device := by
  exact ⟨deepFile_mount, rfl, rfl, rfl⟩

/-- C17 (failing input): for `inumber = 0` `remove` loads block 1, slot 0, while `stat`,
`read` and `write` hand block 0, the superblock, to the device; for
`inumber = 25` on the 20-block `deepFile` they ask for block 25 and fail
where `remove` reads block 1. -/
theorem stat_reads_other_block :
    removeLocate sfs 0 = (1, 0) ∧ statLocate sfs 0 = (0, 0) ∧
      removeLocate sfs 25 = (1, 25) ∧ statLocate sfs 25 = (25, 25) ∧
      stat sfs deepFS 25 = .error .device ∧
      write sfs deepFS 25 [] 0 0 = .error .device ∧
      read sfs deepFS 25 [] 0 0 = .error .device ∧
      ∃ fs', remove sfs deepFS 25 = .ok (true, fs') := by
  exact ⟨rfl, rfl, rfl, rfl, rfl, rfl, rfl, _, deepFile_remove⟩

/-! ## C15: inode numbers -/

/-- The number `create` returns for a free slot is `createNumber`. -/
theorem createScan_found (c : Layout) (tmp : Block) (i : Nat) (num : Int) (j : Nat)
    (js : List Nat) (hj : j < c.INODES_PER_BLOCK) (hv : (Inodes c tmp j).Valid = 0) :
    createScan c tmp i num (j :: js) = .ok ((createNumber c i j : Nat), setValid c tmp j 1) := by
  simp only [createScan, Nat.not_le.mpr hj, if_false, hv, if_true, createNumber]

/-- The inode block `remove` reads and writes back is the one `removeLocate` names, and
the record it clears is in the slot `removeLocate` names. -/
theorem remove_uses_removeLocate (c : Layout) (d : Disk) (inumber : Nat) :
    (removed c d inumber).data (removeLocate c inumber).1 =
      setValid c (d.data (removeLocate c inumber).1) (removeLocate c inumber).2 0 :=
  removed_inode_block c d inumber

theorem createNumber_exact (c : Layout) (inodeBlocks i j : Nat)
    (hno : inodeBlocks * c.INODES_PER_BLOCK ≤ 2 ^ 32)
    (hi1 : 1 ≤ i) (hi2 : i ≤ inodeBlocks) (hj : j < c.INODES_PER_BLOCK) :
    createNumber c i j = c.INODES_PER_BLOCK * (i - 1) + j := by
  have h1 : i * c.INODES_PER_BLOCK ≤ inodeBlocks * c.INODES_PER_BLOCK :=
    Nat.mul_le_mul_right _ hi2
  have h2 : (i - 1) * c.INODES_PER_BLOCK + c.INODES_PER_BLOCK = i * c.INODES_PER_BLOCK := by
    obtain ⟨k, rfl⟩ : ∃ k, i = k + 1 := ⟨i - 1, by omega⟩
    simp [Nat.succ_mul]
  unfold createNumber
  rw [Nat.mod_eq_of_lt (by omega), Nat.mul_comm]

theorem removeLocate_createNumber (c : Layout) (inodeBlocks i j : Nat)
    (hib : inodeBlocks < 2 ^ 32)
    (hno : inodeBlocks * c.INODES_PER_BLOCK ≤ 2 ^ 32)
    (hi1 : 1 ≤ i) (hi2 : i ≤ inodeBlocks) (hj : j < c.INODES_PER_BLOCK) :
    removeLocate c (createNumber c i j) = (i, j) := by
  have hpos : 0 < c.INODES_PER_BLOCK := by omega
  rw [createNumber_exact c inodeBlocks i j hno hi1 hi2 hj]
  unfold removeLocate
  rw [Nat.mul_add_div hpos, Nat.div_eq_of_lt hj, Nat.mul_add_mod, Nat.mod_eq_of_lt hj,
    Nat.mod_eq_of_lt (by omega)]
  congr 1
  omega

/-- C15 (counterexample): with 128 inodes per block, slot 0 of inode block 33554433 (an
inode block of a formatted device of 335544330 blocks) gets the number 0,
the number of slot 0 of inode block 1, and `remove` maps that number to
block 1: `(i - 1) * INODES_PER_BLOCK + j` wraps in `uint32_t`. -/
theorem createNumber_wraps :
    33554433 ≤ (formatSuper sfs 335544330).InodeBlocks ∧
      createNumber sfs 33554433 0 = 0 ∧ createNumber sfs 1 0 = 0 ∧
      removeLocate sfs (createNumber sfs 33554433 0) = (1, 0) := by
  decide

/-- C15 (amended): when the inode table has at most `2 ^ 32` slots
(`inodeBlocks * INODES_PER_BLOCK ≤ 2 ^ 32`, `inodeBlocks` a 32-bit field), for
every inode block `1 ≤ i ≤ inodeBlocks` and slot `j < INODES_PER_BLOCK` the
number `create` assigns is `(i - 1) * INODES_PER_BLOCK + j`, the arithmetic of
`remove` maps it back to exactly `(i, j)`, and two different (block, slot)
pairs never get the same number. -/
theorem inode_numbering (c : Layout) (inodeBlocks i j : Nat)
    (hib : inodeBlocks < 2 ^ 32)
    (hno : inodeBlocks * c.INODES_PER_BLOCK ≤ 2 ^ 32)
    (hi1 : 1 ≤ i) (hi2 : i ≤ inodeBlocks) (hj : j < c.INODES_PER_BLOCK) :
    createNumber c i j = (i - 1) * c.INODES_PER_BLOCK + j ∧
      removeLocate c (createNumber c i j) = (i, j) ∧
      ∀ i' j', 1 ≤ i' → i' ≤ inodeBlocks → j' < c.INODES_PER_BLOCK →
        createNumber c i j = createNumber c i' j' → i = i' ∧ j = j' := by
  refine ⟨?_, removeLocate_createNumber c inodeBlocks i j hib hno hi1 hi2 hj, ?_⟩
  · rw [createNumber_exact c inodeBlocks i j hno hi1 hi2 hj, Nat.mul_comm]
  · intro i' j' hi1' hi2' hj' heq
    have h1 := removeLocate_createNumber c inodeBlocks i j hib hno hi1 hi2 hj
    have h2 := removeLocate_createNumber c inodeBlocks i' j' hib hno hi1' hi2' hj'
    rw [heq, h2] at h1
    exact ⟨(congrArg Prod.fst h1).symm, (congrArg Prod.snd h1).symm⟩

/-- C15 (witness): slot 0 of inode block 10 on a device with ten inode blocks of 128
slots. -/
theorem inode_numbering_witness :
    createNumber sfs 10 0 = (10 - 1) * sfs.INODES_PER_BLOCK + 0 ∧
      removeLocate sfs (createNumber sfs 10 0) = (10, 0) ∧
      ∀ i' j', 1 ≤ i' → i' ≤ 10 → j' < sfs.INODES_PER_BLOCK →
        createNumber sfs 10 0 = createNumber sfs i' j' → 10 = i' ∧ 0 = j' :=
  inode_numbering sfs 10 10 0 (by decide) (by decide) (by decide) (by decide) (by decide)

/-! ## C16: format, then mount -/

theorem setBit_ok (bm : List Nat) (x : Nat) (h : x / 32 < bm.length) :
    setBit bm x = .ok (bm.set (x / 32) (bm.getD (x / 32) 0 ||| 1 <<< (x % 32))) := by
  have e : bm[x / 32]? = some (bm.getD (x / 32) 0) := by
    rw [List.getD_eq_getElem?_getD, List.getElem?_eq_getElem h]; rfl
  simp only [setBit, e]

theorem bitSet_set (bm : List Nat) (x b : Nat) (h : x / 32 < bm.length) :
    bitSet (bm.set (x / 32) (bm.getD (x / 32) 0 ||| 1 <<< (x % 32))) b
      = (bitSet bm b || decide (b = x)) := by
  unfold bitSet
  by_cases hb : x / 32 = b / 32
  · have e : (bm.set (x / 32) (bm.getD (x / 32) 0 ||| 1 <<< (x % 32))).getD (b / 32) 0
        = bm.getD (x / 32) 0 ||| 1 <<< (x % 32) := by
      rw [List.getD_eq_getElem?_getD, List.getElem?_set, if_pos hb, if_pos h]; rfl
    rw [e, Nat.testBit_or, Nat.one_shiftLeft, Nat.testBit_two_pow, hb]
    congr 1
    by_cases hx : x % 32 = b % 32
    · have : b = x := by omega
      simp [hx, this]
    · have : ¬ b = x := by
        intro h1; subst h1; exact hx rfl
      simp [hx, this]
  · have e : (bm.set (x / 32) (bm.getD (x / 32) 0 ||| 1 <<< (x % 32))).getD (b / 32) 0
        = bm.getD (b / 32) 0 := by
      rw [List.getD_eq_getElem?_getD, List.getElem?_set, if_neg hb,
        ← List.getD_eq_getElem?_getD]
    have : ¬ b = x := by
      intro h1; subst h1; exact hb rfl
    rw [e]
    simp [this]

theorem word_set_lt (bm : List Nat) (x : Nat) (hw : ∀ w ∈ bm, w < 2 ^ 32) :
    ∀ w ∈ bm.set (x / 32) (bm.getD (x / 32) 0 ||| 1 <<< (x % 32)), w < 2 ^ 32 := by
  intro w hwm
  rcases List.mem_or_eq_of_mem_set hwm with h1 | h1
  · exact hw w h1
  · rw [h1]
    apply Nat.or_lt_two_pow
    · rw [List.getD_eq_getElem?_getD]
      cases hg : bm[x / 32]? with
      | none => simp
      | some v => exact hw v (List.getElem?_mem hg)
    · rw [Nat.one_shiftLeft]
      exact Nat.pow_lt_pow_right (by decide) (Nat.mod_lt _ (by decide))

/-- The first loop of `mount` in closed form: every bit of `l` is added, nothing else
changes, as long as every bit lies inside the bitmap. -/
theorem loop_setBit (l : List Nat) (bm : List Nat) (h : ∀ x ∈ l, x / 32 < bm.length) :
    ∃ bm', loop setBit bm l = .ok bm' ∧ bm'.length = bm.length ∧
      (∀ b, bitSet bm' b = (bitSet bm b || decide (b ∈ l))) ∧
      ((∀ w ∈ bm, w < 2 ^ 32) → ∀ w ∈ bm', w < 2 ^ 32) := by
  induction l generalizing bm with
  | nil => exact ⟨bm, rfl, rfl, fun b => by simp, fun hw => hw⟩
  | cons x l ih =>
    have hx := h x (List.mem_cons_self x l)
    obtain ⟨bm', h1, h2, h3, h4⟩ :=
      ih (bm.set (x / 32) (bm.getD (x / 32) 0 ||| 1 <<< (x % 32)))
        (fun y hy => by rw [List.length_set]; exact h y (List.mem_cons_of_mem x hy))
    refine ⟨bm', ?_, ?_, ?_, ?_⟩
    · rw [loop_cons_ok l (setBit_ok bm x hx)]; exact h1
    · rw [h2, List.length_set]
    · intro b
      rw [h3 b, bitSet_set bm x b hx]
      by_cases hbx : b = x <;> by_cases hbl : b ∈ l <;> simp [hbx, hbl]
    · intro hw
      exact h4 (word_set_lt bm x hw)

theorem mountInode_invalid (c : Layout) (d : Disk) (bm : List Nat) (ino : Inode)
    (h : ino.Valid ≠ 1) : mountInode c d bm ino = .ok bm := by
  simp only [mountInode, h, if_false]

theorem loop_mountInode_zero (c : Layout) (d : Disk) (bm : List Nat) (l : List Nat) :
    loop (fun bm j => mountInode c d bm (Inodes c zeroBlock j)) bm l = .ok bm := by
  induction l with
  | nil => rfl
  | cons j l ih =>
    rw [loop_cons_ok (f := fun bm j => mountInode c d bm (Inodes c zeroBlock j)) l
      (mountInode_invalid c d bm (Inodes c zeroBlock j) (by simp [Inodes, zeroBlock]))]
    exact ih

theorem loop_mountBlock_zero (c : Layout) (d : Disk) (bm : List Nat) (l : List Nat)
    (h : ∀ i ∈ l, i < d.Blocks ∧ d.data i = zeroBlock) :
    loop (mountBlock c d) bm l = .ok bm := by
  induction l with
  | nil => rfl
  | cons i l ih =>
    obtain ⟨h1, h2⟩ := h i (List.mem_cons_self i l)
    have e : mountBlock c d bm i = .ok bm := by
      rw [mountBlock_ok c d bm i h1, h2]
      exact loop_mountInode_zero c d bm _
    rw [loop_cons_ok l e]
    exact ih (fun k hk => h k (List.mem_cons_of_mem i hk))

theorem resize_nil (n : Nat) : resize [] n = List.replicate n 0 := by
  simp [resize]

theorem bitSet_init (n b : Nat) (h : 0 < n) :
    bitSet ((List.replicate n 0).set 0 1) b = decide (b = 0) := by
  unfold bitSet
  rw [List.getD_eq_getElem?_getD, List.getElem?_set]
  by_cases hb : 0 = b / 32
  · rw [if_pos hb, if_pos (by simpa using h)]
    have e : Nat.testBit 1 (b % 32) = decide (0 = b % 32) := @Nat.testBit_two_pow 0 (b % 32)
    simp only [Option.getD_some, e]
    by_cases h0 : b = 0
    · subst h0; rfl
    · have : ¬ 0 = b % 32 := by omega
      simp [h0, this]
  · rw [if_neg hb, List.getElem?_replicate]
    have h0 : ¬ b = 0 := by omega
    split_ifs <;> simp [h0]

theorem words_init (n : Nat) : ∀ w ∈ (List.replicate n 0).set 0 1, w < 2 ^ 32 := by
  intro w hw
  rcases List.mem_or_eq_of_mem_set hw with h1 | h1
  · rw [(List.mem_replicate.mp h1).2]; decide
  · rw [h1]; decide

/-- `format` then `mount` on a fresh engine, in closed form, for a device of
`1 ≤ n < 2 ^ 31` blocks. -/
theorem formatted_mount (c : Layout) (disk : Disk) (h1 : 1 ≤ disk.Blocks)
    (h2 : disk.Blocks < 2 ^ 31) :
    ∃ bm, mount c {} (formatted c disk)
        = .ok (true, { mountedOn := some (formatted c disk), bitmap := bm }) ∧
      bm.length = (disk.Blocks + 31) / 32 ∧ (∀ w ∈ bm, w < 2 ^ 32) ∧
      ∀ b, bitSet bm b = true ↔ b ≤ disk.Blocks / 10 := by
  have e3 : disk.Blocks / 10 % 2 ^ 32 = disk.Blocks / 10 := Nat.mod_eq_of_lt (by omega)
  have e4 : disk.Blocks % 2 ^ 32 = disk.Blocks := Nat.mod_eq_of_lt (by omega)
  have hsb : Super ((formatted c disk).data 0) = formatSuper c disk.Blocks := by
    rw [formatted_zero, Super_superBlock]
  have hB : (Super ((formatted c disk).data 0)).Blocks = disk.Blocks := by
    rw [hsb]; exact e4
  have hI : (Super ((formatted c disk).data 0)).InodeBlocks = disk.Blocks / 10 := by
    rw [hsb]; exact e3
  have hlen0 : ((List.replicate ((disk.Blocks + 31) / 32) 0).set 0 1).length
      = (disk.Blocks + 31) / 32 := by simp
  obtain ⟨bm2, hl, hlen, hbits, hw⟩ :=
    loop_setBit (List.range' 1 (disk.Blocks / 10))
      ((List.replicate ((disk.Blocks + 31) / 32) 0).set 0 1)
      (fun x hx => by
        rw [hlen0]
        have := List.mem_range'_1.mp hx
        omega)
  have hz : loop (mountBlock c (formatted c disk)) bm2 (List.range' 1 (disk.Blocks / 10))
      = .ok bm2 :=
    loop_mountBlock_zero c (formatted c disk) bm2 _ (fun i hi => by
      have h3 := List.mem_range'_1.mp hi
      have h4 : i < disk.Blocks := by omega
      exact ⟨h4, formatted_pos c disk i h3.1 h4⟩)
  refine ⟨bm2, ?_, ?_, ?_, ?_⟩
  · refine mount_of_loops c {} (formatted c disk) bm2 bm2 h1 ?_ ?_ ?_ ?_ ?_
    · rw [hsb]; rfl
    · rw [hB]; exact ⟨h1, h2⟩
    · rw [hI]; omega
    · rw [hB, hI]
      have : ({} : FileSystem).bitmap = [] := rfl
      rw [this, resize_nil]
      exact hl
    · rw [hI]; exact hz
  · rw [hlen, hlen0]
  · exact hw (words_init _)
  · intro b
    rw [hbits b, bitSet_init _ b (by omega)]
    simp only [Bool.or_eq_true, decide_eq_true_eq, List.mem_range'_1]
    omega

/-- C16 (counterexample): a device of `2 ^ 31` blocks formats, but `mount` of it does
not return: `int sumOfBlocks` is `-2 ^ 31`, the bitmap size
`ceil(sumOfBlocks / 32.0)` is negative and `resize` fails. -/
theorem mount_huge_fails :
    format sfs (blank 2147483648) = .ok (true, formatted sfs (blank 2147483648)) ∧
      mount sfs {} (formatted sfs (blank 2147483648)) = .error .alloc :=
  ⟨format_eq sfs (blank 2147483648) (by decide), rfl⟩

/-- C16 (amended): for every device of `1 ≤ n < 2 ^ 31` blocks, `format` followed by
`mount` on a fresh engine returns true, binds the engine to the device and
yields a bitmap of `ceil(n / 32)` words below `2 ^ 32` in which bit `b` is set
if and only if `b ≤ n / 10`. -/
theorem format_mount_spec (c : Layout) (disk : Disk) (h1 : 1 ≤ disk.size)
    (h2 : disk.size < 2 ^ 31) :
    ∃ d fs, format c disk = .ok (true, d) ∧ mount c {} d = .ok (true, fs) ∧
      fs.mountedOn = some d ∧
      fs.bitmap.length = (disk.size + 31) / 32 ∧ (∀ w ∈ fs.bitmap, w < 2 ^ 32) ∧
      ∀ b, bitSet fs.bitmap b = true ↔ b ≤ disk.size / 10 := by
  obtain ⟨bm, hm, hlen, hw, hb⟩ := formatted_mount c disk h1 h2
  exact ⟨formatted c disk, _, format_eq c disk h1, hm, rfl, hlen, hw, hb⟩

/-- C16 (witness): a 100-block device of zero blocks, upstream constants: four bitmap
words, bits 0 .. 10 set. -/
theorem format_mount_spec_witness :
    ∃ d fs, format sfs (blank 100) = .ok (true, d) ∧ mount sfs {} d = .ok (true, fs) ∧
      fs.mountedOn = some d ∧
      fs.bitmap.length = (100 + 31) / 32 ∧ (∀ w ∈ fs.bitmap, w < 2 ^ 32) ∧
      ∀ b, bitSet fs.bitmap b = true ↔ b ≤ 100 / 10 :=
  format_mount_spec sfs (blank 100) (by decide) (by decide)

/-! ## C13: create, remove, create -/

theorem loop_inv {σ ι : Type} (P : σ → Prop) (body : σ → ι → Except Fault σ) (l : List ι)
    (h : ∀ s i s', i ∈ l → P s → body s i = .ok s' → P s') :
    ∀ s s', P s → loop body s l = .ok s' → P s' := by
  induction l with
  | nil =>
    intro s s' hs hl
    simp only [loop] at hl
    injection hl with hl
    rw [← hl]; exact hs
  | cons i l ih =>
    intro s s' hs hl
    simp only [loop] at hl
    cases hb : body s i with
    | error e => rw [hb] at hl; exact Except.noConfusion hl
    | ok s1 =>
      rw [hb] at hl
      exact ih (fun s i s' hi => h s i s' (List.mem_cons_of_mem _ hi)) s1 s'
        (h s i s1 (List.mem_cons_self i l) hs hb) hl

theorem Disk.read_inv {d : Disk} {b : Nat} {blk : Block} (h : d.read b = .ok blk) :
    b < d.Blocks ∧ blk = d.data b := by
  unfold Disk.read at h
  split_ifs at h with h1
  injection h with h
  exact ⟨h1, h.symm⟩

theorem createScan_result (c : Layout) (tmp : Block) (i : Nat) (num : Int) (js : List Nat)
    (r : Int × Block) (h : createScan c tmp i num js = .ok r) :
    r.1 = num ∨ ∃ j, j < c.INODES_PER_BLOCK ∧ r.1 = (createNumber c i j : Nat) := by
  induction js with
  | nil =>
    simp only [createScan] at h
    injection h with h
    left; rw [← h]
  | cons j js ih =>
    simp only [createScan] at h
    split_ifs at h with h1 h2
    · injection h with h
      right
      exact ⟨j, Nat.lt_of_not_le h1, by rw [← h]; rfl⟩
    · exact ih h

theorem createBlock_result (c : Layout) (d : Disk) (num num' : Int) (i : Nat)
    (h : createBlock c d num i = .ok num') :
    num' = num ∨ ∃ j, j < c.INODES_PER_BLOCK ∧ num' = (createNumber c i j : Nat) := by
  unfold createBlock at h
  simp only [bind, Except.bind, pure, Except.pure] at h
  cases hr : d.read i with
  | error e => rw [hr] at h; exact Except.noConfusion h
  | ok tmp =>
    rw [hr] at h
    simp only [] at h
    cases hs : createScan c tmp i num (List.range (c.INODES_PER_BLOCK + 1)) with
    | error e => rw [hs] at h; exact Except.noConfusion h
    | ok r =>
      rw [hs] at h
      injection h with h
      rw [← h]
      exact createScan_result c tmp i num _ r hs

/-- What `create` can return: `-1`, or the number of a slot `j < INODES_PER_BLOCK` of an
inode block `1 ≤ i ≤ inodeBlocks`. -/
theorem create_result (c : Layout) (fs fs1 : FileSystem) (d : Disk) (x : Int)
    (hm : fs.mountedOn = some d) (h : create c fs = .ok (x, fs1)) :
    x = -1 ∨ ∃ i j, 1 ≤ i ∧ i ≤ (Super (d.data 0)).InodeBlocks ∧ j < c.INODES_PER_BLOCK ∧
      x = (createNumber c i j : Nat) := by
  unfold create at h
  rw [hm] at h
  simp only [bind, Except.bind, pure, Except.pure] at h
  cases hr : d.read 0 with
  | error e => rw [hr] at h; exact Except.noConfusion h
  | ok block =>
    rw [hr] at h
    simp only [] at h
    obtain ⟨-, hblk⟩ := Disk.read_inv hr
    subst hblk
    cases hl : loop (createBlock c d) (-1) (List.range' 1 (Super (d.data 0)).InodeBlocks) with
    | error e => rw [hl] at h; exact Except.noConfusion h
    | ok num =>
      rw [hl] at h
      injection h with h
      injection h with h _
      subst h
      refine loop_inv
        (fun n : Int => n = -1 ∨ ∃ i j, 1 ≤ i ∧ i ≤ (Super (d.data 0)).InodeBlocks ∧
          j < c.INODES_PER_BLOCK ∧ n = (createNumber c i j : Nat))
        (createBlock c d) _ ?_ (-1) num (Or.inl rfl) hl
      intro s i s' hi hs hb
      rcases createBlock_result c d s s' i hb with h1 | ⟨j, hj, h1⟩
      · rw [h1]; exact hs
      · have := List.mem_range'_1.mp hi
        exact Or.inr ⟨i, j, this.1, by omega, hj, h1⟩

theorem mount_binds (c : Layout) (fs0 fs : FileSystem) (d : Disk)
    (h : mount c fs0 d = .ok (true, fs)) : fs.mountedOn = some d := by
  unfold mount at h
  simp only [bind, Except.bind, pure, Except.pure] at h
  repeat' (split at h)
  all_goals first
    | exact Except.noConfusion h
    | (injection h with h1; injection h1 with h2 h3; first
        | exact Bool.noConfusion h2
        | (rw [← h3]))

theorem format_inv (c : Layout) (disk d : Disk) (r : Bool) (h : format c disk = .ok (r, d)) :
    1 ≤ disk.Blocks ∧ d = formatted c disk := by
  by_cases h1 : 1 ≤ disk.Blocks
  · rw [format_eq c disk h1] at h
    injection h with h
    injection h with _ h
    exact ⟨h1, h.symm⟩
  · have h0 : disk.Blocks = 0 := by omega
    exfalso
    unfold format at h
    simp only [Disk.size, h0, List.range_zero, loop, bind, Except.bind, Disk.write,
      Nat.lt_irrefl, if_false] at h
    exact Except.noConfusion h

theorem setValid_zero (c : Layout) (j : Nat) : setValid c zeroBlock j 0 = zeroBlock := by
  funext w
  rw [setValid, Function.update_apply]
  split_ifs <;> rfl

/-- On a formatted device `remove` of a number whose inode block is one of the zeroed
blocks changes nothing: the record has no pointers and `Valid` is 0 already. -/
theorem removed_formatted (c : Layout) (disk : Disk) (x : Nat)
    (h1 : 1 ≤ (x / c.INODES_PER_BLOCK + 1) % 2 ^ 32)
    (h2 : (x / c.INODES_PER_BLOCK + 1) % 2 ^ 32 < disk.Blocks) :
    removed c (formatted c disk) x = formatted c disk := by
  have hz : (formatted c disk).data ((x / c.INODES_PER_BLOCK + 1) % 2 ^ 32) = zeroBlock :=
    formatted_pos c disk _ h1 h2
  have hD : ∀ p ∈ (Inodes c zeroBlock (x % c.INODES_PER_BLOCK)).Direct, p = 0 := by
    intro p hp
    simp only [Inodes, zeroBlock, List.mem_map] at hp
    obtain ⟨_, _, h⟩ := hp
    exact h.symm
  unfold removed
  simp only [hz]
  have hI : (Inodes c zeroBlock (x % c.INODES_PER_BLOCK)).Indirect = 0 := rfl
  simp only [hI, ne_eq, not_true_eq_false, if_false, setValid_zero]
  have hext : ∀ (B : Nat) (f g : Nat → Block), f = g → (⟨B, f⟩ : Disk) = ⟨B, g⟩ := by
    intro B f g h; rw [h]
  refine hext _ _ (formatted c disk).data ?_
  funext b
  by_cases hb : b = (x / c.INODES_PER_BLOCK + 1) % 2 ^ 32
  · rw [hb, Function.update_same, hz]
  · rw [Function.update_noteq hb]
    have : ¬ (b ≠ 0 ∧ b ∈ (Inodes c zeroBlock (x % c.INODES_PER_BLOCK)).Direct) :=
      fun h => h.1 (hD b h.2)
    simp only [zeroed, if_neg this]

/-- C13: on a device of `n` blocks (`n` a 32-bit count) that was formatted and mounted
on a fresh engine, if `create` returns an inode number `x` (not `-1`), then
`remove(x)` returns true and a second `create` returns the same `x`. -/
theorem create_remove_create (c : Layout) (disk d : Disk) (fs fs1 : FileSystem) (x : Int)
    (h32 : disk.size < 2 ^ 32)
    (hf : format c disk = .ok (true, d))
    (hmnt : mount c {} d = .ok (true, fs))
    (hc : create c fs = .ok (x, fs1))
    (hx : 0 ≤ x) :
    ∃ fs2 fs3, remove c fs1 x.toNat = .ok (true, fs2) ∧ create c fs2 = .ok (x, fs3) := by
  unfold Disk.size at h32
  obtain ⟨h1, hd⟩ := format_inv c disk d true hf
  subst hd
  have hm := mount_binds c {} fs _ hmnt
  have e := create_state c fs fs1 x hc
  subst e
  rcases create_result c fs1 fs1 _ x hm hc with h | ⟨i, j, hi1, hi2, hj, hxe⟩
  · omega
  · have hxn : x.toNat = createNumber c i j := by rw [hxe]; rfl
    have hib : (Super ((formatted c disk).data 0)).InodeBlocks = disk.Blocks / 10 := by
      rw [formatted_zero, Super_superBlock]
      exact Nat.mod_eq_of_lt (by omega)
    have hpos : 0 < c.INODES_PER_BLOCK := by omega
    have hle : createNumber c i j ≤ c.INODES_PER_BLOCK * (i - 1) + j := by
      unfold createNumber
      rw [Nat.mul_comm]
      exact Nat.mod_le _ _
    have hdiv : createNumber c i j / c.INODES_PER_BLOCK ≤ i - 1 := by
      have := Nat.div_le_div_right (c := c.INODES_PER_BLOCK) hle
      rwa [Nat.mul_add_div hpos, Nat.div_eq_of_lt hj, Nat.add_zero] at this
    have hidx : (x.toNat / c.INODES_PER_BLOCK + 1) % 2 ^ 32
        = x.toNat / c.INODES_PER_BLOCK + 1 := by
      rw [hxn]; exact Nat.mod_eq_of_lt (by omega)
    have hlo : 1 ≤ (x.toNat / c.INODES_PER_BLOCK + 1) % 2 ^ 32 := by
      rw [hidx]; exact Nat.le_add_left 1 _
    have hhi : (x.toNat / c.INODES_PER_BLOCK + 1) % 2 ^ 32 < disk.Blocks := by
      rw [hidx, hxn]; omega
    have hz : (formatted c disk).data ((x.toNat / c.INODES_PER_BLOCK + 1) % 2 ^ 32)
        = zeroBlock := formatted_pos c disk _ hlo hhi
    have hr := remove_eq c fs1 (formatted c disk) x.toNat hm hhi
      (by
        rw [hz]
        intro p hp hp0
        simp only [Inodes, zeroBlock, List.mem_map] at hp
        obtain ⟨_, _, h⟩ := hp
        exact absurd h.symm hp0)
      (by
        rw [hz]
        intro h0
        exact absurd rfl h0)
    rw [removed_formatted c disk x.toNat hlo hhi] at hr
    have hfs : ({ mountedOn := some (formatted c disk), bitmap := fs1.bitmap } : FileSystem)
        = fs1 := by
      cases fs1
      simp only at hm
      subst hm
      rfl
    rw [hfs] at hr
    exact ⟨fs1, fs1, hr, hc⟩

/-- C13 (witness): the 100-block device: `create` returns 1152, `remove(1152)` returns
true and `create` returns 1152 again. -/
theorem create_remove_create_witness :
    ∃ fs2 fs3, remove sfs fresh100 (1152 : Int).toNat = .ok (true, fs2) ∧
      create sfs fs2 = .ok (1152, fs3) := by
  set_option maxRecDepth 20000 in
  exact create_remove_create sfs (blank 100) (formatted sfs (blank 100)) fresh100 fresh100 1152
    (by decide) (format_eq sfs (blank 100) (by decide)) rfl rfl (by decide)

/-! ## C18, C19: the accesses of create and mount -/

/-- C18 (failing input): on the mounted `fullTable` the scan of `create` passes the
slots 0 .. 127 of inode block 1, all valid, and then, with `j = 128` still
inside the loop bound `j <= INODES_PER_BLOCK`, reads `Inodes[128]`: a slot index
that is not less than `INODES_PER_BLOCK`. -/
theorem create_slot_index_past_end :
    mount sfs {} fullTable = .ok (true, { mountedOn := some fullTable, bitmap := [7] }) ∧
      createScan sfs (fullTable.data 1) 1 (-1) (List.range sfs.INODES_PER_BLOCK)
        = .ok (-1, fullTable.data 1) ∧
      createScan sfs (fullTable.data 1) 1 (-1) [sfs.INODES_PER_BLOCK] = .error .outOfBounds ∧
      createScan sfs (fullTable.data 1) 1 (-1) (List.range (sfs.INODES_PER_BLOCK + 1))
        = .error .outOfBounds ∧
      createBlock sfs fullTable (-1) 1 = .error .outOfBounds := by
  set_option maxRecDepth 20000 in
  exact ⟨fullTable_mount, rfl, rfl, rfl, rfl⟩

/-- C19 (failing input): `oneFile` carries the superblock `format` writes for 20 blocks
and one valid inode with all pointers 0. When `mount` reaches that inode
(bitmap `[7]`) it reads block `Indirect = 0`, the superblock, as the pointer
block, though no inode names a block with a non-zero indirect pointer; its
word 0 is the magic number, and marking it indexes bitmap word 126321056 of a
bitmap of one word. -/
theorem mount_reads_superblock_as_pointers :
    oneFile.data 0 = (formatted sfs (blank 20)).data 0 ∧
      (Inodes sfs (oneFile.data 1) 0).Valid = 1 ∧
      (Inodes sfs (oneFile.data 1) 0).Indirect = 0 ∧
      oneFile.read (Inodes sfs (oneFile.data 1) 0).Indirect = .ok (oneFile.data 0) ∧
      oneFile.data 0 0 = 0xf0f03410 ∧ oneFile.data 0 0 / 32 = 126321056 ∧
      setBit [7] (oneFile.data 0 0) = .error .outOfBounds ∧
      mountInode sfs oneFile [7] (Inodes sfs (oneFile.data 1) 0) = .error .outOfBounds := by
  set_option maxRecDepth 20000 in
  exact ⟨rfl, rfl, rfl, rfl, rfl, rfl, rfl, rfl⟩

/-! ## C20: what remove leaves alone -/

theorem zeroed_not_mem (d : Disk) (l : List Nat) (b : Nat) (h : ¬ (b ≠ 0 ∧ b ∈ l)) :
    (zeroed d l).data b = d.data b := by
  simp only [zeroed, if_neg h]

theorem zeroed_entry (d : Disk) (l : List Nat) (p i : Nat) (h : (zeroed d l).data p i ≠ 0) :
    (zeroed d l).data p = d.data p := by
  by_cases hp : p ≠ 0 ∧ p ∈ l
  · exact absurd (by simp only [zeroed, if_pos hp, zeroBlock]) h
  · exact zeroed_not_mem d l p hp

/-- A block that is neither the inode block of `inumber`, nor named by a non-zero direct
pointer, nor by a non-zero entry of the indirect block, is the same after
`remove`. -/
theorem removed_frame (c : Layout) (d : Disk) (inumber b : Nat)
    (hb : b ≠ (inumber / c.INODES_PER_BLOCK + 1) % 2 ^ 32)
    (h1 : b = 0 ∨ b ∉ (Inodes c (d.data ((inumber / c.INODES_PER_BLOCK + 1) % 2 ^ 32))
      (inumber % c.INODES_PER_BLOCK)).Direct)
    (h2 : b = 0 ∨ (Inodes c (d.data ((inumber / c.INODES_PER_BLOCK + 1) % 2 ^ 32))
        (inumber % c.INODES_PER_BLOCK)).Indirect = 0 ∨
      ∀ i, i < c.POINTERS_PER_BLOCK →
        d.data (Inodes c (d.data ((inumber / c.INODES_PER_BLOCK + 1) % 2 ^ 32))
          (inumber % c.INODES_PER_BLOCK)).Indirect i ≠ b) :
    (removed c d inumber).data b = d.data b := by
  have hd : ¬ (b ≠ 0 ∧ b ∈ (Inodes c (d.data ((inumber / c.INODES_PER_BLOCK + 1) % 2 ^ 32))
      (inumber % c.INODES_PER_BLOCK)).Direct) := by
    rintro ⟨h0, hmem⟩
    rcases h1 with h1 | h1
    · exact h0 h1
    · exact h1 hmem
  by_cases hi : (Inodes c (d.data ((inumber / c.INODES_PER_BLOCK + 1) % 2 ^ 32))
      (inumber % c.INODES_PER_BLOCK)).Indirect = 0
  · rw [removed_no_indirect c d inumber b hb hi]
    exact zeroed_not_mem d _ b hd
  · rw [removed_indirect c d inumber b hb hi, zeroed_not_mem _ _ b, zeroed_not_mem d _ b hd]
    rintro ⟨h0, hmem⟩
    simp only [List.mem_map, List.mem_range] at hmem
    obtain ⟨i, hi', hbe⟩ := hmem
    rcases h2 with h2 | h2 | h2
    · exact h0 h2
    · exact hi h2
    · have hne : (zeroed d (Inodes c (d.data ((inumber / c.INODES_PER_BLOCK + 1) % 2 ^ 32))
          (inumber % c.INODES_PER_BLOCK)).Direct).data
          (Inodes c (d.data ((inumber / c.INODES_PER_BLOCK + 1) % 2 ^ 32))
            (inumber % c.INODES_PER_BLOCK)).Indirect i ≠ 0 := by
        rw [hbe]; exact h0
      rw [zeroed_entry d _ _ i hne] at hbe
      exact h2 i hi' hbe

theorem record_word_ne (W j slot t : Nat) (hW : t < W) (h : j ≠ slot ∨ t ≠ 0) :
    j * W + t ≠ slot * W := by
  intro heq
  have h1 : (j * W + t) % W = t := by
    rw [Nat.mul_comm, Nat.mul_add_mod, Nat.mod_eq_of_lt hW]
  have h2 : (slot * W) % W = 0 := Nat.mul_mod_left _ _
  rw [heq, h2] at h1
  rcases h with h | h
  · subst h1
    rw [Nat.add_zero] at heq
    exact h (Nat.eq_of_mul_eq_mul_right hW heq)
  · exact h h1.symm

/-- Clearing `Valid` in one slot leaves every other record of the block as it was. -/
theorem Inodes_setValid_other (c : Layout) (blk : Block) (slot j : Nat) (h : j ≠ slot) :
    Inodes c (setValid c blk slot 0) j = Inodes c blk j := by
  have hw : ∀ t, t < inodeWords c →
      setValid c blk slot 0 (j * inodeWords c + t) = blk (j * inodeWords c + t) := by
    intro t ht
    rw [setValid, Function.update_noteq (record_word_ne _ j slot t ht (Or.inl h))]
  have hK : inodeWords c = c.POINTERS_PER_INODE + 3 := rfl
  have h0 := hw 0 (by omega)
  have h1 := hw 1 (by omega)
  have h2 := hw (2 + c.POINTERS_PER_INODE) (by omega)
  rw [Nat.add_zero] at h0
  rw [← Nat.add_assoc] at h2
  simp only [Inodes, h0, h1, h2]
  congr 1
  apply List.map_congr_left
  intro k hk
  have hk' := List.mem_range.mp hk
  have := hw (2 + k) (by omega)
  rw [← Nat.add_assoc] at this
  exact this

/-- C20: on a mounted device with the superblock invariants, for every
`inumber < totalInodes` whose non-zero pointers (direct, indirect, entries of
the indirect block) all name blocks in `inodeBlocks+1 .. totalBlocks-1`,
`remove(inumber)` returns true and leaves unchanged: the size of the device,
the superblock, every inode block other than the one holding `inumber`, every
word of that inode block other than the `Valid` word of the slot (so every
other inode record in all its fields), and every block that is neither that
inode block nor named by a non-zero direct pointer or a non-zero entry of the
indirect block. -/
theorem remove_frame (c : Layout) (fs : FileSystem) (d : Disk) (inumber : Nat) (ino : Inode)
    (hm : fs.mountedOn = some d)
    (hs : SuperOK c d)
    (hn : inumber < (Super (d.data 0)).Inodes)
    (hino : ino = Inodes c (d.data (1 + inumber / c.INODES_PER_BLOCK))
      (inumber % c.INODES_PER_BLOCK))
    (hdir : ∀ p ∈ ino.Direct, p ≠ 0 →
      (Super (d.data 0)).InodeBlocks < p ∧ p < (Super (d.data 0)).Blocks)
    (hind : ino.Indirect ≠ 0 →
      (Super (d.data 0)).InodeBlocks < ino.Indirect ∧ ino.Indirect < (Super (d.data 0)).Blocks)
    (hent : ino.Indirect ≠ 0 → ∀ i, i < c.POINTERS_PER_BLOCK → d.data ino.Indirect i ≠ 0 →
      (Super (d.data 0)).InodeBlocks < d.data ino.Indirect i ∧
        d.data ino.Indirect i < (Super (d.data 0)).Blocks) :
    ∃ d', remove c fs inumber = .ok (true, { mountedOn := some d', bitmap := fs.bitmap }) ∧
      d'.Blocks = d.Blocks ∧
      d'.data 0 = d.data 0 ∧
      (∀ b, 1 ≤ b → b ≤ (Super (d.data 0)).InodeBlocks →
        b ≠ 1 + inumber / c.INODES_PER_BLOCK → d'.data b = d.data b) ∧
      (∀ w, w ≠ (inumber % c.INODES_PER_BLOCK) * inodeWords c →
        d'.data (1 + inumber / c.INODES_PER_BLOCK) w
          = d.data (1 + inumber / c.INODES_PER_BLOCK) w) ∧
      (∀ j, j ≠ inumber % c.INODES_PER_BLOCK →
        Inodes c (d'.data (1 + inumber / c.INODES_PER_BLOCK)) j
          = Inodes c (d.data (1 + inumber / c.INODES_PER_BLOCK)) j) ∧
      ∀ b, b ≠ 1 + inumber / c.INODES_PER_BLOCK → (b = 0 ∨ b ∉ ino.Direct) →
        (b = 0 ∨ ino.Indirect = 0 ∨
          ∀ i, i < c.POINTERS_PER_BLOCK → d.data ino.Indirect i ≠ b) →
        d'.data b = d.data b := by
  obtain ⟨hB, h32, hib, hI⟩ := hs
  have hlt : inumber / c.INODES_PER_BLOCK < (Super (d.data 0)).InodeBlocks :=
    Nat.div_lt_of_lt_mul (lt_of_lt_of_le hn hI)
  have e : (inumber / c.INODES_PER_BLOCK + 1) % 2 ^ 32 = 1 + inumber / c.INODES_PER_BLOCK := by
    rw [Nat.mod_eq_of_lt (by omega)]; omega
  have hr := remove_eq c fs d inumber hm (by rw [e]; omega)
    (by
      rw [e, ← hino]
      intro p hp h0
      have := hdir p hp h0
      omega)
    (by
      rw [e, ← hino]
      intro h0
      refine ⟨by have := hind h0; omega, ?_⟩
      intro q hq hq0
      simp only [List.mem_map, List.mem_range] at hq
      obtain ⟨i, hi, rfl⟩ := hq
      have hz := zeroed_entry d _ _ i hq0
      rw [hz] at hq0 ⊢
      have := hent h0 i hi hq0
      omega)
  have hfr : ∀ b, b ≠ 1 + inumber / c.INODES_PER_BLOCK → (b = 0 ∨ b ∉ ino.Direct) →
      (b = 0 ∨ ino.Indirect = 0 ∨
        ∀ i, i < c.POINTERS_PER_BLOCK → d.data ino.Indirect i ≠ b) →
      (removed c d inumber).data b = d.data b := by
    intro b hb h1 h2
    exact removed_frame c d inumber b (by rw [e]; exact hb) (by rw [e, ← hino]; exact h1)
      (by rw [e, ← hino]; exact h2)
  have hblk : (removed c d inumber).data (1 + inumber / c.INODES_PER_BLOCK)
      = setValid c (d.data (1 + inumber / c.INODES_PER_BLOCK))
          (inumber % c.INODES_PER_BLOCK) 0 := by
    have h1 := removed_inode_block c d inumber
    rwa [e] at h1
  refine ⟨removed c d inumber, hr, rfl, ?_, ?_, ?_, ?_, hfr⟩
  · exact hfr 0 (by rw [Nat.add_comm]; exact (Nat.succ_ne_zero _).symm) (Or.inl rfl)
      (Or.inl rfl)
  · intro b hb1 hb2 hb3
    refine hfr b hb3 (Or.inr ?_) ?_
    · intro hmem
      have := hdir b hmem (by omega)
      omega
    · by_cases h0 : ino.Indirect = 0
      · exact Or.inr (Or.inl h0)
      · refine Or.inr (Or.inr ?_)
        intro i hi heq
        have := hent h0 i hi (by rw [heq]; omega)
        omega
  · intro w hw
    rw [hblk, setValid, Function.update_noteq hw]
  · intro j hj
    rw [hblk]
    exact Inodes_setValid_other c _ _ j hj

/-- C20 (witness): `remove(0)` on `twoLevel`. -/
theorem remove_frame_witness :
    ∃ d', remove sfs twoLevelFS 0 = .ok (true, { mountedOn := some d', bitmap := [63] }) ∧
      d'.Blocks = 20 ∧
      d'.data 0 = twoLevel.data 0 ∧
      (∀ b, 1 ≤ b → b ≤ (Super (twoLevel.data 0)).InodeBlocks →
        b ≠ 1 + 0 / sfs.INODES_PER_BLOCK → d'.data b = twoLevel.data b) ∧
      (∀ w, w ≠ (0 % sfs.INODES_PER_BLOCK) * inodeWords sfs →
        d'.data (1 + 0 / sfs.INODES_PER_BLOCK) w
          = twoLevel.data (1 + 0 / sfs.INODES_PER_BLOCK) w) ∧
      (∀ j, j ≠ 0 % sfs.INODES_PER_BLOCK →
        Inodes sfs (d'.data (1 + 0 / sfs.INODES_PER_BLOCK)) j
          = Inodes sfs (twoLevel.data (1 + 0 / sfs.INODES_PER_BLOCK)) j) ∧
      ∀ b, b ≠ 1 + 0 / sfs.INODES_PER_BLOCK → (b = 0 ∨ b ∉ [3, 0, 0, 0, 0]) →
        (b = 0 ∨ (4 : Nat) = 0 ∨
          ∀ i, i < sfs.POINTERS_PER_BLOCK → twoLevel.data 4 i ≠ b) →
        d'.data b = twoLevel.data b :=
  remove_frame sfs twoLevelFS twoLevel 0
    { Valid := 1, Size := 0, Direct := [3, 0, 0, 0, 0], Indirect := 4 }
    rfl ⟨rfl, by decide, by decide, by decide⟩ (by decide) rfl (by decide)
    (fun _ => ⟨by decide, by decide⟩)
    (fun _ i _ h => by rw [twoLevel_entries i h]; exact ⟨by decide, by decide⟩)

end SimpleFS
